import Mathlib

/-!
Verification of the NSE (Narrow Stacked Expander) labeling engine of
storage-proofs/porep/src/nse/vanilla/labels.rs.

The byte buffers of the source are modelled as lists of naturals (each a u8
value); machine integers are naturals, with truncation made explicit through
byte extraction.  SHA-256 and the two parent-graph generators are external
collaborators of the engine (consumed as contracts), so every definition that
uses them takes them as explicit function arguments.  The remaining pieces of
the repository that the source calls but that live outside labels.rs
(Config::window_size, truncate_hash, batch_hash, the field encode/decode
operations, and the scalar-field Domain conversions) are modelled from the
specification; each such definition carries a doc comment saying so.
-/

set_option maxHeartbeats 1600000

namespace NSE

/-- Byte buffers: lists of naturals, each entry a u8 value. -/
abbrev Bytes := List Nat

/-- Node size in bytes (util::NODE_SIZE). -/
def NODE_SIZE : Nat := 32

/-- The NSE configuration (super::Config), the fields read by labels.rs. -/
structure Config where
  k : Nat
  num_nodes_window : Nat
  degree_expander : Nat
  degree_butterfly : Nat
  num_expander_layers : Nat
  num_butterfly_layers : Nat
  sector_size : Nat

/-- Modelled from the spec: num_layers = num_expander_layers + num_butterfly_layers
(Config lives outside src/, only its use sites are in labels.rs). -/
def Config.num_layers (c : Config) : Nat := c.num_expander_layers + c.num_butterfly_layers

/-- Modelled from the spec: window_size_bytes = num_nodes_window * 32
(Config lives outside src/, only its use sites are in labels.rs). -/
def Config.window_size (c : Config) : Nat := c.num_nodes_window * NODE_SIZE

/-- Failure modes of the engine.  precondition and domain are the returned
error kinds; assertFail and removeFromEmpty model the two panicking paths
(assert_eq! on the store-config count, Vec::remove(0) on an empty vector). -/
inductive Err where
  | precondition : Err
  | domain : Err
  | assertFail : Err
  | removeFromEmpty : Err
deriving DecidableEq

/-- Big-endian bytes of a u32 value (u32::to_be_bytes); byte extraction
truncates any natural to its low 32 bits. -/
def u32_to_be_bytes (x : Nat) : Bytes :=
  [x / 2 ^ 24 % 256, x / 2 ^ 16 % 256, x / 2 ^ 8 % 256, x % 256]

/-- Big-endian bytes of a u64 value (u64::to_be_bytes); byte extraction
truncates any natural to its low 64 bits. -/
def u64_to_be_bytes (x : Nat) : Bytes :=
  [x / 2 ^ 56 % 256, x / 2 ^ 48 % 256, x / 2 ^ 40 % 256, x / 2 ^ 32 % 256,
   x / 2 ^ 24 % 256, x / 2 ^ 16 % 256, x / 2 ^ 8 % 256, x % 256]

/-- The value encoded by a big-endian byte list. -/
def fromBEBytes (l : Bytes) : Nat := l.foldl (fun acc b => acc * 256 + b % 256) 0

/-- hash_prefix of labels.rs: 32 bytes, the layer index big-endian in bytes
0..4, the absolute node index big-endian in bytes 4..12, zero padding after. -/
def hash_prefix (layer : Nat) (node_index : Nat) : Bytes :=
  u32_to_be_bytes layer ++ u64_to_be_bytes node_index ++ List.replicate 20 0

/-- Little-endian byte decomposition of a natural, n bytes. -/
def toLEBytes : Nat → Nat → Bytes
  | 0, _ => []
  | n + 1, x => x % 256 :: toLEBytes n (x / 256)

/-- Value of a little-endian byte list (each entry reduced to a u8). -/
def fromLEBytes : Bytes → Nat
  | [] => 0
  | b :: bs => b % 256 + 256 * fromLEBytes bs

/-- Claim C2: hash_prefix lays out the layer index big-endian in bytes 0..4,
the node index big-endian in bytes 4..12, and zeros in bytes 12..32; in
particular hash_prefix 0 0 is all zeros and hash_prefix 1 6 is
[0,0,0,1, 0,0,0,0,0,0,0,6] followed by twenty zero bytes. -/
theorem hash_prefix_layout (layer node : Nat) (h1 : layer < 2 ^ 32) (h2 : node < 2 ^ 64) :
    ( hash_prefix layer node).length = 32 ∧
    ( hash_prefix layer node).take 4 = u32_to_be_bytes layer ∧
    fromBEBytes (( hash_prefix layer node).take 4) = layer ∧
    (( hash_prefix layer node).drop 4).take 8 = u64_to_be_bytes node ∧
    fromBEBytes ((( hash_prefix layer node).drop 4).take 8) = node ∧
    ( hash_prefix layer node).drop 12 = List.replicate 20 0 ∧
    hash_prefix 0 0 = List.replicate 32 0 ∧
    hash_prefix 1 6 = [0, 0, 0, 1, 0, 0, 0, 0, 0, 0, 0, 6] ++ List.replicate 20 0 := by
  refine ⟨?_, ?_, ?_, ?_, ?_, ?_, ?_, ?_⟩
  · simp [ hash_prefix, u32_to_be_bytes, u64_to_be_bytes]
  · simp [ hash_prefix, u32_to_be_bytes, u64_to_be_bytes]
  · simp only [ hash_prefix, u32_to_be_bytes, u64_to_be_bytes, List.cons_append,
      List.nil_append, List.take, fromBEBytes, List.foldl]
    omega
  · simp [ hash_prefix, u32_to_be_bytes, u64_to_be_bytes]
  · simp only [ hash_prefix, u32_to_be_bytes, u64_to_be_bytes, List.cons_append,
      List.nil_append, List.drop, List.take, fromBEBytes, List.foldl]
    omega
  · simp [ hash_prefix, u32_to_be_bytes, u64_to_be_bytes]
  · decide
  · decide

/-- Witness for hash_prefix_layout at layer 1, node 6. -/
theorem hash_prefix_layout_witness :
    (1 : Nat) < 2 ^ 32 ∧ (6 : Nat) < 2 ^ 64 ∧
    fromBEBytes (( hash_prefix 1 6).take 4) = 1 ∧
    ( hash_prefix 1 6).drop 12 = List.replicate 20 0 := by
  refine ⟨by decide, by decide, ?_, ?_⟩
  · exact ( hash_prefix_layout 1 6 (by decide) (by decide)).2.2.1
  · exact ( hash_prefix_layout 1 6 (by decide) (by decide)).2.2.2.2.2.1

/-- Claim C10: hash_prefix is injective on u32 layer indices and u64 node
indices: equal prefixes force equal layers and equal node indices. -/
theorem hash_prefix_injective (l1 n1 l2 n2 : Nat)
    (hl1 : l1 < 2 ^ 32) (hn1 : n1 < 2 ^ 64) (hl2 : l2 < 2 ^ 32) (hn2 : n2 < 2 ^ 64)
    (h : hash_prefix l1 n1 = hash_prefix l2 n2) : l1 = l2 ∧ n1 = n2 := by
  simp only [ hash_prefix, u32_to_be_bytes, u64_to_be_bytes, List.cons_append,
    List.nil_append, List.cons.injEq] at h
  obtain ⟨e1, e2, e3, e4, e5, e6, e7, e8, e9, e10, e11, e12, -⟩ := h
  constructor
  · omega
  · omega

/-- Witness for hash_prefix_injective at (3, 4) = (3, 4). -/
theorem hash_prefix_injective_witness : (3 : Nat) = 3 ∧ (4 : Nat) = 4 :=
  hash_prefix_injective 3 4 3 4 (by decide) (by decide) (by decide) (by decide) rfl

/-- Modelled from the spec: the modulus of the scalar field whose elements the
Domain type represents (the field arithmetic and the Domain conversions are
external collaborators; this is the BLS12-381 scalar field order). -/
def r : Nat := 52435875175126190479447740508185965837690552500527637822603658699938581184513

/-- Modelled from the spec: Domain::try_from_bytes, which interprets 32 bytes
little-endian and fails when they do not represent a valid field scalar. -/
def tryFromBytes (b : Bytes) : Option Nat :=
  if b.length = 32 ∧ fromLEBytes b < r then some (fromLEBytes b) else none

/-- Modelled from the spec: Domain::into_bytes, the canonical 32-byte
little-endian representation of a field scalar. -/
def intoBytes (x : Nat) : Bytes := toLEBytes 32 x

/-- Modelled from the spec: encode::encode, encode(key, data) = key + data in
the field (crate::encode lives outside src/). -/
def encodeOp (key m : Nat) : Nat := (key + m) % r

/-- Modelled from the spec: encode::decode, decode(key, c) = c - key in the
field (crate::encode lives outside src/). -/
def decodeOp (key c : Nat) : Nat := (c + (r - key % r)) % r

/-- The i-th 32-byte node of a buffer. -/
def getNode (b : Bytes) (i : Nat) : Bytes := (b.drop (32 * i)).take 32

/-- Overwrite the i-th 32-byte node of a buffer. -/
def setNode (b : Bytes) (i : Nat) (v : Bytes) : Bytes :=
  b.take (32 * i) ++ v ++ b.drop (32 * i + 32)

/-- Concatenation of f over an index list (the bytes of a parent sequence). -/
def joinMap (f : Nat → Bytes) : List Nat → Bytes
  | [] => []
  | i :: rest => f i ++ joinMap f rest

/-- Concatenation of the node values 0, ..., n-1: the buffer a fully executed
per-node loop produces. -/
def nodesJoin (vals : Nat → Bytes) : Nat → Bytes
  | 0 => []
  | n + 1 => nodesJoin vals n ++ vals n

/-- The even-length front of a list: Itertools::tuples() consumes pairs and
drops an unpaired trailing element. -/
def evenTake (l : List Nat) : List Nat := l.take (2 * (l.length / 2))

/-- Modelled from the spec: truncate_hash clears the two high bits of the 32nd
(last) byte of a digest so it fits the field (batch_hasher.rs lives outside
src/); on a byte value this is reduction mod 64. -/
def truncate_hash (h : Bytes) : Bytes := h.take 31 ++ [h.getD 31 0 % 64] ++ h.drop 32

/-- Absolute node index: window_index * num_nodes_window + local index
(the u64 arithmetic cannot overflow for u32 inputs). -/
def absIndex (c : Config) (wi i : Nat) : Nat := wi * c.num_nodes_window + i

/-- The node value written by mask_layer at local index i:
truncate(SHA256(prefix(1, absolute(i)) || replica_id)). -/
def maskNode (sha : Bytes → Bytes) (c : Config) (wi : Nat) (rid : Bytes) (i : Nat) : Bytes :=
  truncate_hash (sha ( hash_prefix 1 (absIndex c wi i) ++ rid))

/-- Modelled from the spec: batch_hash splits the m = k * degree_expander
parent indices into k consecutive chunks of degree_expander indices, hashes
each chunk's concatenated parent node values into a truncated digest, then
feeds the k chunk digests into the primed state (prefix || replica_id),
finalizes and truncates (batch_hasher.rs lives outside src/). -/
def batch_hash (sha : Bytes → Bytes) (k deg : Nat) (primed : Bytes) (parents : List Nat)
    (layerIn : Bytes) : Bytes :=
  truncate_hash (sha (primed ++
    nodesJoin (fun j => truncate_hash (sha (joinMap (getNode layerIn)
      ((parents.drop (j * deg)).take deg)))) k))

/-- The node value written by expander_layer at local index i. -/
def expanderNode (sha : Bytes → Bytes) (ep : Nat → List Nat) (c : Config) (wi : Nat)
    (rid : Bytes) (li : Nat) (layerIn : Bytes) (i : Nat) : Bytes :=
  batch_hash sha c.k c.degree_expander ( hash_prefix li (absIndex c wi i) ++ rid) (ep i) layerIn

/-- The node value written by butterfly_layer at local index i, and the key
derived by the butterfly encode/decode layer:
truncate(SHA256(prefix || replica_id || parent pair values)). -/
def butterflyNode (sha : Bytes → Bytes) (bp : Nat → Nat → List Nat) (c : Config) (wi : Nat)
    (rid : Bytes) (li : Nat) (layerIn : Bytes) (i : Nat) : Bytes :=
  truncate_hash (sha ( hash_prefix li (absIndex c wi i) ++ rid ++
    joinMap (getNode layerIn) (evenTake (bp i li))))

/-- mask_layer of labels.rs: checks the output length, then writes every node
of the window (data-parallel in the source; the canonical node order here). -/
def mask_layer (sha : Bytes → Bytes) (c : Config) (wi : Nat) (rid : Bytes)
    (layer_out : Bytes) : Except Err Bytes :=
  if layer_out.length = c.window_size then
    .ok (nodesJoin (maskNode sha c wi rid) c.num_nodes_window)
  else .error .precondition

/-- expander_layer of labels.rs: the three ensure! guards in source order,
then the per-node batch-hash writes. -/
def expander_layer (sha : Bytes → Bytes) (ep : Nat → List Nat) (c : Config) (wi : Nat)
    (rid : Bytes) (li : Nat) (layer_in layer_out : Bytes) : Except Err Bytes :=
  if layer_in.length ≠ layer_out.length then .error .precondition
  else if layer_out.length ≠ c.window_size then .error .precondition
  else if 1 < li ∧ li ≤ c.num_expander_layers then
    .ok (nodesJoin (expanderNode sha ep c wi rid li layer_in) c.num_nodes_window)
  else .error .precondition

/-- butterfly_layer of labels.rs: the three ensure! guards in source order,
then the per-node butterfly-hash writes. -/
def butterfly_layer (sha : Bytes → Bytes) (bp : Nat → Nat → List Nat) (c : Config) (wi : Nat)
    (rid : Bytes) (li : Nat) (layer_in layer_out : Bytes) : Except Err Bytes :=
  if layer_in.length ≠ layer_out.length then .error .precondition
  else if layer_out.length ≠ c.window_size then .error .precondition
  else if c.num_expander_layers < li ∧ li < c.num_expander_layers + c.num_butterfly_layers then
    .ok (nodesJoin (butterflyNode sha bp c wi rid li layer_in) c.num_nodes_window)
  else .error .precondition

/-- The sequential node loop of butterfly_encode_decode_layer: derive the key,
convert key and data node to field scalars (either conversion can fail with a
DomainError, aborting the loop with the buffer as mutated so far), apply the
operation, and write the result in place. -/
def encDecLoop (key : Nat → Bytes) (op : Nat → Nat → Nat) :
    List Nat → Bytes → Bytes × Option Err
  | [], d => (d, none)
  | i :: rest, d =>
    match tryFromBytes (key i) with
    | none => (d, some .domain)
    | some kv =>
      match tryFromBytes (getNode d i) with
      | none => (d, some .domain)
      | some mv => encDecLoop key op rest (setNode d i (intoBytes (op kv mv)))

/-- butterfly_encode_decode_layer of labels.rs: the three ensure! guards in
source order, then the sequential in-place node loop over the data buffer.
The returned buffer is the caller's data buffer as left by the call. -/
def butterfly_encode_decode_layer (sha : Bytes → Bytes) (bp : Nat → Nat → List Nat)
    (c : Config) (wi : Nat) (rid : Bytes) (li : Nat) (layer_in data : Bytes)
    (op : Nat → Nat → Nat) : Bytes × Option Err :=
  if layer_in.length ≠ data.length then (data, some .precondition)
  else if layer_in.length ≠ c.window_size then (data, some .precondition)
  else if li = c.num_layers then
    encDecLoop (butterflyNode sha bp c wi rid li layer_in) op
      (List.range c.num_nodes_window) data
  else (data, some .precondition)

/-- butterfly_encode_layer of labels.rs: the encode/decode layer with
encode::encode. -/
def butterfly_encode_layer (sha : Bytes → Bytes) (bp : Nat → Nat → List Nat) (c : Config)
    (wi : Nat) (rid : Bytes) (li : Nat) (layer_in data : Bytes) : Bytes × Option Err :=
  butterfly_encode_decode_layer sha bp c wi rid li layer_in data encodeOp

/-- butterfly_decode_layer of labels.rs: the encode/decode layer with
encode::decode. -/
def butterfly_decode_layer (sha : Bytes → Bytes) (bp : Nat → Nat → List Nat) (c : Config)
    (wi : Nat) (rid : Bytes) (li : Nat) (layer_in data : Bytes) : Bytes × Option Err :=
  butterfly_encode_decode_layer sha bp c wi rid li layer_in data decodeOp

/-- The layer indices of the expander loop: 2..=num_expander_layers. -/
def expanderIndices (c : Config) : List Nat :=
  (List.range (c.num_expander_layers - 1)).map (fun t => t + 2)

/-- The layer indices of the butterfly loop:
(num_expander_layers+1)..num_layers. -/
def butterflyIndices (c : Config) : List Nat :=
  (List.range (c.num_layers - 1 - c.num_expander_layers)).map
    (fun t => t + c.num_expander_layers + 1)

/-- The double-buffered layer loop of decode: run the layer function over the
given layer indices, swapping the previous/current buffers after each layer. -/
def foldPlain (f : Nat → Bytes → Bytes → Except Err Bytes) :
    List Nat → Bytes × Bytes → Except Err (Bytes × Bytes)
  | [], st => .ok st
  | li :: rest, (p, q) =>
    match f li p q with
    | .error e => .error e
    | .ok q' => foldPlain f rest (q', p)

/-- The double-buffered layer loop of encode_with_trees: run the layer
function, pop the next store config (panic if none is left, modelled as the
removeFromEmpty error), record the tree built from the finished layer, swap
the buffers.  A tree is modelled as the pair of its store config and the layer
bytes it commits to. -/
def layerTreeFold (f : Nat → Bytes → Bytes → Except Err Bytes) :
    List Nat → Bytes × Bytes × List Nat × List (Nat × Bytes) →
    Except Err (Bytes × Bytes × List Nat × List (Nat × Bytes))
  | [], st => .ok st
  | li :: rest, (p, q, cfgs, trees) =>
    match f li p q with
    | .error e => .error e
    | .ok q' =>
      match cfgs with
      | [] => .error .removeFromEmpty
      | sc :: cfgs' => layerTreeFold f rest (q', p, cfgs', trees ++ [(sc, q')])

/-- encode_with_trees of labels.rs: assert the store-config count, build the
mask layer and its tree, the expander layers and trees, the butterfly layers
and trees, then encode the caller's data in place as the replica layer and
build the replica tree.  The first component is the caller's data buffer as
left by the call; the second is the returned Result. -/
def encode_with_trees (sha : Bytes → Bytes) (ep : Nat → List Nat) (bp : Nat → Nat → List Nat)
    (c : Config) (store_configs : List Nat) (wi : Nat) (rid : Bytes) (data : Bytes) :
    Bytes × Except Err (List (Nat × Bytes) × (Nat × Bytes)) :=
  if store_configs.length ≠ c.num_layers then (data, .error .assertFail)
  else
    match mask_layer sha c wi rid (List.replicate c.window_size 0) with
    | .error e => (data, .error e)
    | .ok prev =>
      match store_configs with
      | [] => (data, .error .removeFromEmpty)
      | sc0 :: cfgs0 =>
        match layerTreeFold (expander_layer sha ep c wi rid) (expanderIndices c)
            (prev, List.replicate c.window_size 0, cfgs0, [(sc0, prev)]) with
        | .error e => (data, .error e)
        | .ok st1 =>
          match layerTreeFold (butterfly_layer sha bp c wi rid) (butterflyIndices c) st1 with
          | .error e => (data, .error e)
          | .ok (p, _q, cfgs2, trees2) =>
            match butterfly_encode_layer sha bp c wi rid c.num_layers p data with
            | (d', some e) => (d', .error e)
            | (d', none) =>
              match cfgs2 with
              | [] => (d', .error .removeFromEmpty)
              | scF :: _ => (d', .ok (trees2, (scF, d')))

/-- A parallel per-node loop executed in an explicit write order: the source's
par_chunks_mut dispatches the independent node writes in an unspecified order
over disjoint 32-byte slices; order lists one execution schedule. -/
def writeNodeList (vals : Nat → Bytes) (order : List Nat) (buf : Bytes) : Bytes :=
  order.foldl (fun b i => setNode b i (vals i)) buf

/-- mask_layer with an explicit schedule for its data-parallel node writes. -/
def mask_layer_sched (order : List Nat) (sha : Bytes → Bytes) (c : Config) (wi : Nat)
    (rid : Bytes) (layer_out : Bytes) : Except Err Bytes :=
  if layer_out.length = c.window_size then
    .ok (writeNodeList (maskNode sha c wi rid) order layer_out)
  else .error .precondition

/-- expander_layer with an explicit schedule for its data-parallel node
writes. -/
def expander_layer_sched (order : List Nat) (sha : Bytes → Bytes) (ep : Nat → List Nat)
    (c : Config) (wi : Nat) (rid : Bytes) (li : Nat) (layer_in layer_out : Bytes) :
    Except Err Bytes :=
  if layer_in.length ≠ layer_out.length then .error .precondition
  else if layer_out.length ≠ c.window_size then .error .precondition
  else if 1 < li ∧ li ≤ c.num_expander_layers then
    .ok (writeNodeList (expanderNode sha ep c wi rid li layer_in) order layer_out)
  else .error .precondition

/-- butterfly_layer with an explicit schedule for its data-parallel node
writes. -/
def butterfly_layer_sched (order : List Nat) (sha : Bytes → Bytes) (bp : Nat → Nat → List Nat)
    (c : Config) (wi : Nat) (rid : Bytes) (li : Nat) (layer_in layer_out : Bytes) :
    Except Err Bytes :=
  if layer_in.length ≠ layer_out.length then .error .precondition
  else if layer_out.length ≠ c.window_size then .error .precondition
  else if c.num_expander_layers < li ∧ li < c.num_expander_layers + c.num_butterfly_layers then
    .ok (writeNodeList (butterflyNode sha bp c wi rid li layer_in) order layer_out)
  else .error .precondition

/-- encode_with_trees with an explicit per-layer schedule for the
data-parallel node writes of the mask, expander and butterfly layers (the
final encoding layer is sequential in the source and has no schedule).  sched
li is the execution order used for layer li. -/
def encode_with_trees_sched (sched : Nat → List Nat) (sha : Bytes → Bytes)
    (ep : Nat → List Nat) (bp : Nat → Nat → List Nat) (c : Config) (store_configs : List Nat)
    (wi : Nat) (rid : Bytes) (data : Bytes) :
    Bytes × Except Err (List (Nat × Bytes) × (Nat × Bytes)) :=
  if store_configs.length ≠ c.num_layers then (data, .error .assertFail)
  else
    match mask_layer_sched (sched 1) sha c wi rid (List.replicate c.window_size 0) with
    | .error e => (data, .error e)
    | .ok prev =>
      match store_configs with
      | [] => (data, .error .removeFromEmpty)
      | sc0 :: cfgs0 =>
        match layerTreeFold (fun li p q => expander_layer_sched (sched li) sha ep c wi rid li p q)
            (expanderIndices c) (prev, List.replicate c.window_size 0, cfgs0, [(sc0, prev)]) with
        | .error e => (data, .error e)
        | .ok st1 =>
          match layerTreeFold
              (fun li p q => butterfly_layer_sched (sched li) sha bp c wi rid li p q)
              (butterflyIndices c) st1 with
          | .error e => (data, .error e)
          | .ok (p, _q, cfgs2, trees2) =>
            match butterfly_encode_layer sha bp c wi rid c.num_layers p data with
            | (d', some e) => (d', .error e)
            | (d', none) =>
              match cfgs2 with
              | [] => (d', .error .removeFromEmpty)
              | scF :: _ => (d', .ok (trees2, (scF, d')))

/-- The layer pipeline of decode (steps 1-3, identical call sequence to
encode_with_trees but building no trees), returning the final key layer. -/
def decodeLayers (sha : Bytes → Bytes) (ep : Nat → List Nat) (bp : Nat → Nat → List Nat)
    (c : Config) (wi : Nat) (rid : Bytes) : Except Err Bytes :=
  match mask_layer sha c wi rid (List.replicate c.window_size 0) with
  | .error e => .error e
  | .ok prev =>
    match foldPlain (expander_layer sha ep c wi rid) (expanderIndices c)
        (prev, List.replicate c.window_size 0) with
    | .error e => .error e
    | .ok st =>
      match foldPlain (butterfly_layer sha bp c wi rid) (butterflyIndices c) st with
      | .error e => .error e
      | .ok (p, _q) => .ok p

/-- decode of labels.rs: rebuild the key layers, then subtract the keys from
the encoded data in place.  The first component is the caller's buffer as left
by the call; the second is the error, if any. -/
def decode (sha : Bytes → Bytes) (ep : Nat → List Nat) (bp : Nat → Nat → List Nat)
    (c : Config) (wi : Nat) (rid : Bytes) (encoded_data : Bytes) : Bytes × Option Err :=
  match decodeLayers sha ep bp c wi rid with
  | .error e => (encoded_data, some e)
  | .ok prev =>
    butterfly_decode_layer sha bp c wi rid c.num_layers prev encoded_data

lemma toLEBytes_length (n x : Nat) : (toLEBytes n x).length = n := by
  induction n generalizing x with
  | zero => rfl
  | succ m ih => simp [toLEBytes, ih]

lemma toLEBytes_lt (n x : Nat) : ∀ b ∈ toLEBytes n x, b < 256 := by
  induction n generalizing x with
  | zero => simp [toLEBytes]
  | succ m ih =>
    intro b hb
    simp only [toLEBytes, List.mem_cons] at hb
    rcases hb with h | h
    · omega
    · exact ih _ b h

lemma fromLEBytes_toLEBytes (n x : Nat) (h : x < 256 ^ n) :
    fromLEBytes (toLEBytes n x) = x := by
  induction n generalizing x with
  | zero => simp at h; simp [toLEBytes, fromLEBytes, h]
  | succ m ih =>
    have hx : x / 256 < 256 ^ m := by
      rw [Nat.div_lt_iff_lt_mul (by norm_num)]
      calc x < 256 ^ (m + 1) := h
        _ = 256 ^ m * 256 := by ring
    simp only [toLEBytes, fromLEBytes, ih (x / 256) hx]
    omega

lemma toLEBytes_fromLEBytes (l : Bytes) (h : ∀ b ∈ l, b < 256) :
    toLEBytes l.length (fromLEBytes l) = l := by
  induction l with
  | nil => rfl
  | cons b bs ih =>
    have hb : b < 256 := h b (List.mem_cons_self b bs)
    have hbs : ∀ x ∈ bs, x < 256 := fun x hx => h x (List.mem_cons_of_mem b hx)
    simp only [List.length_cons, toLEBytes, fromLEBytes, List.cons.injEq]
    constructor
    · omega
    · have : (b % 256 + 256 * fromLEBytes bs) / 256 = fromLEBytes bs := by omega
      rw [this, ih hbs]

lemma fromLEBytes_lt (l : Bytes) : fromLEBytes l < 256 ^ l.length := by
  induction l with
  | nil => simp [fromLEBytes]
  | cons b bs ih =>
    simp only [fromLEBytes, List.length_cons, pow_succ]
    have : b % 256 < 256 := Nat.mod_lt _ (by norm_num)
    calc b % 256 + 256 * fromLEBytes bs < 256 + 256 * fromLEBytes bs := by omega
      _ ≤ 256 * (fromLEBytes bs + 1) := by ring_nf; omega
      _ ≤ 256 * 256 ^ bs.length := by
          have := ih
          exact Nat.mul_le_mul_left 256 (by omega)
      _ = 256 ^ bs.length * 256 := by ring

lemma fromLEBytes_append (a b : Bytes) :
    fromLEBytes (a ++ b) = fromLEBytes a + 256 ^ a.length * fromLEBytes b := by
  induction a with
  | nil => simp [fromLEBytes]
  | cons x xs ih =>
    show fromLEBytes (x :: (xs ++ b)) = _
    rw [fromLEBytes, ih, fromLEBytes]
    simp only [List.length_cons, pow_succ]
    ring

lemma r_pos : 0 < r := by decide

lemma r_lt_pow : r < 256 ^ 32 := by decide

lemma length_setNode (b : Bytes) (i : Nat) (v : Bytes) (hi : 32 * i + 32 ≤ b.length)
    (hv : v.length = 32) : (setNode b i v).length = b.length := by
  simp only [setNode, List.length_append, List.length_take, List.length_drop, hv]
  omega

lemma getNode_length (b : Bytes) (i : Nat) (hi : 32 * i + 32 ≤ b.length) :
    (getNode b i).length = 32 := by
  simp only [getNode, List.length_take, List.length_drop]
  omega

lemma getNode_append_left (a b : Bytes) (i : Nat) (hi : 32 * i + 32 ≤ a.length) :
    getNode (a ++ b) i = getNode a i := by
  simp only [getNode]
  rw [List.drop_append_of_le_length (by omega)]
  rw [List.take_append_of_le_length (by simp [List.length_drop]; omega)]

lemma getNode_append_right (a b : Bytes) (ha : a.length = 32 * i) :
    getNode (a ++ b) i = b.take 32 := by
  simp only [getNode]
  rw [← ha, List.drop_left]

lemma getNode_setNode_self (b : Bytes) (i : Nat) (v : Bytes) (hi : 32 * i + 32 ≤ b.length)
    (hv : v.length = 32) : getNode (setNode b i v) i = v := by
  simp only [setNode]
  rw [List.append_assoc, getNode_append_right _ _ (by simp [List.length_take]; omega)]
  rw [List.take_append_of_le_length (by omega), List.take_of_length_le (by omega)]

lemma getNode_take (b : Bytes) (m j : Nat) (h : 32 * j + 32 ≤ m) :
    getNode (b.take m) j = getNode b j := by
  simp only [getNode]
  rw [List.drop_take, List.take_take]
  congr 1
  omega

lemma getNode_drop_mult (b : Bytes) (k m : Nat) :
    getNode (b.drop (32 * k)) m = getNode b (m + k) := by
  simp only [getNode, List.drop_drop]
  congr 2
  ring

lemma getNode_append_mult (a b : Bytes) (k j : Nat) (ha : a.length = 32 * k) (hk : k ≤ j) :
    getNode (a ++ b) j = getNode b (j - k) := by
  simp only [getNode]
  rw [List.drop_append_eq_append_drop]
  have h1 : List.drop (32 * j) a = [] := List.drop_eq_nil_of_le (by omega)
  rw [h1, List.nil_append]
  congr 2
  omega

lemma getNode_setNode_ne (b : Bytes) (i j : Nat) (v : Bytes) (hi : 32 * i + 32 ≤ b.length)
    (hv : v.length = 32) (hne : i ≠ j) : getNode (setNode b i v) j = getNode b j := by
  have hta : (b.take (32 * i)).length = 32 * i := by
    simp [List.length_take]
    omega
  rcases Nat.lt_or_ge j i with hj | hj
  · -- j before the write: the node lives in the take (32 * i) front
    rw [setNode,
      getNode_append_left (b.take (32 * i) ++ v) _ j
        (by simp only [List.length_append, hta, hv]; omega),
      getNode_append_left (b.take (32 * i)) v j (by omega),
      getNode_take _ _ _ (by omega)]
  · -- j after the write: the node lives in the drop (32 * i + 32) tail
    have hj' : i < j := by omega
    rw [setNode,
      getNode_append_mult (b.take (32 * i) ++ v) _ (i + 1) j
        (by simp only [List.length_append, hta, hv]; ring) (by omega)]
    have h32 : 32 * i + 32 = 32 * (i + 1) := by ring
    rw [h32, getNode_drop_mult]
    congr 1
    omega

lemma nodesJoin_length (vals : Nat → Bytes) (n : Nat) (h : ∀ i, i < n → (vals i).length = 32) :
    (nodesJoin vals n).length = 32 * n := by
  induction n with
  | zero => rfl
  | succ m ih =>
    simp only [nodesJoin, List.length_append]
    rw [ih (fun i hi => h i (by omega)), h m (by omega)]
    ring

lemma getNode_nodesJoin (vals : Nat → Bytes) (n i : Nat)
    (h : ∀ j, j < n → (vals j).length = 32) (hi : i < n) :
    getNode (nodesJoin vals n) i = vals i := by
  induction n with
  | zero => omega
  | succ m ih =>
    simp only [nodesJoin]
    rcases Nat.lt_or_ge i m with him | him
    · rw [getNode_append_left]
      · exact ih (fun j hj => h j (by omega)) him
      · rw [nodesJoin_length vals m (fun j hj => h j (by omega))]
        omega
    · have : i = m := by omega
      subst this
      rw [getNode_append_right _ _ (nodesJoin_length vals i (fun j hj => h j (by omega)))]
      exact List.take_of_length_le (by rw [h i (by omega)])

lemma getNode_drop32 (b : Bytes) (i : Nat) : getNode (b.drop 32) i = getNode b (i + 1) := by
  simp only [getNode, List.drop_drop]
  congr 2
  ring

lemma eq_of_nodes : ∀ (n : Nat) (b1 b2 : Bytes), b1.length = 32 * n → b2.length = 32 * n →
    (∀ i, i < n → getNode b1 i = getNode b2 i) → b1 = b2 := by
  intro n
  induction n with
  | zero =>
    intro b1 b2 h1 h2 _
    have e1 : b1 = [] := List.eq_nil_of_length_eq_zero (by omega)
    have e2 : b2 = [] := List.eq_nil_of_length_eq_zero (by omega)
    rw [e1, e2]
  | succ m ih =>
    intro b1 b2 h1 h2 hn
    have hfront : b1.take 32 = b2.take 32 := by
      have := hn 0 (by omega)
      simpa [getNode] using this
    have hrest : b1.drop 32 = b2.drop 32 := by
      apply ih
      · simp [List.length_drop]; omega
      · simp [List.length_drop]; omega
      · intro i hi
        rw [getNode_drop32, getNode_drop32]
        exact hn (i + 1) (by omega)
    calc b1 = b1.take 32 ++ b1.drop 32 := (List.take_append_drop 32 b1).symm
      _ = b2.take 32 ++ b2.drop 32 := by rw [hfront, hrest]
      _ = b2 := List.take_append_drop 32 b2

lemma mem_getNode (b : Bytes) (i : Nat) (x : Nat) (h : x ∈ getNode b i) : x ∈ b :=
  List.mem_of_mem_drop (List.mem_of_mem_take h)

lemma intoBytes_length (x : Nat) : (intoBytes x).length = 32 := toLEBytes_length 32 x

lemma fromLEBytes_intoBytes (v : Nat) (hv : v < 256 ^ 32) :
    fromLEBytes (intoBytes v) = v := fromLEBytes_toLEBytes 32 v hv

lemma tryFromBytes_intoBytes (v : Nat) (hv : v < r) :
    tryFromBytes (intoBytes v) = some v := by
  have h256 : v < 256 ^ 32 := lt_trans hv r_lt_pow
  have he : fromLEBytes (intoBytes v) = v := fromLEBytes_toLEBytes 32 v h256
  simp only [tryFromBytes, intoBytes_length, he]
  simp [hv]

lemma tryFromBytes_some (b : Bytes) (v : Nat) (h : tryFromBytes b = some v) :
    b.length = 32 ∧ fromLEBytes b = v ∧ v < r := by
  simp only [tryFromBytes] at h
  split at h
  · rename_i hcond
    cases h
    exact ⟨hcond.1, rfl, hcond.2⟩
  · cases h

lemma intoBytes_fromLEBytes (b : Bytes) (hlen : b.length = 32) (hb : ∀ x ∈ b, x < 256) :
    intoBytes (fromLEBytes b) = b := by
  have := toLEBytes_fromLEBytes b hb
  rw [hlen] at this
  exact this

lemma tryFromBytes_eq_some_of_valid (b : Bytes) (hlen : b.length = 32)
    (hval : fromLEBytes b < r) : tryFromBytes b = some (fromLEBytes b) := by
  simp [tryFromBytes, hlen, hval]

lemma truncate_hash_length (h : Bytes) (hl : h.length = 32) :
    (truncate_hash h).length = 32 := by
  simp only [truncate_hash, List.length_append, List.length_take, List.length_drop, hl]
  rfl

lemma fromLEBytes_truncate_lt (h : Bytes) (hl : h.length = 32) :
    fromLEBytes (truncate_hash h) < 2 ^ 254 := by
  have hd : h.drop 32 = [] := List.drop_eq_nil_of_le (by omega)
  have hta : (h.take 31).length = 31 := by simp [List.length_take, hl]
  simp only [truncate_hash, hd, List.append_nil, fromLEBytes_append, hta]
  have h1 : fromLEBytes (h.take 31) < 256 ^ 31 := by
    have := fromLEBytes_lt (h.take 31)
    rwa [hta] at this
  have h2 : fromLEBytes [h.getD 31 0 % 64] = h.getD 31 0 % 64 := by
    simp only [fromLEBytes]
    omega
  rw [h2]
  have h3 : h.getD 31 0 % 64 < 64 := Nat.mod_lt _ (by norm_num)
  calc fromLEBytes (h.take 31) + 256 ^ 31 * (h.getD 31 0 % 64)
      < 256 ^ 31 + 256 ^ 31 * 63 := by
        have := Nat.mul_le_mul_left (256 ^ 31) (show h.getD 31 0 % 64 ≤ 63 by omega)
        omega
    _ = 2 ^ 254 := by norm_num

lemma truncate_lt_r (h : Bytes) (hl : h.length = 32) :
    fromLEBytes (truncate_hash h) < r := by
  have := fromLEBytes_truncate_lt h hl
  have h254 : (2 : Nat) ^ 254 < r := by decide
  omega

lemma tryFromBytes_truncate (h : Bytes) (hl : h.length = 32) :
    tryFromBytes (truncate_hash h) = some (fromLEBytes (truncate_hash h)) :=
  tryFromBytes_eq_some_of_valid _ (truncate_hash_length h hl) (truncate_lt_r h hl)

lemma encodeOp_lt (k m : Nat) : encodeOp k m < r := Nat.mod_lt _ r_pos

lemma decode_encode_roundtrip (k m : Nat) (hk : k < r) (hm : m < r) :
    decodeOp k (encodeOp k m) = m := by
  have hkr : k % r = k := Nat.mod_eq_of_lt hk
  simp only [decodeOp, encodeOp, hkr]
  rcases Nat.lt_or_ge (k + m) r with h | h
  · rw [Nat.mod_eq_of_lt h]
    have he : k + m + (r - k) = m + r := by omega
    rw [he, Nat.add_mod_right, Nat.mod_eq_of_lt hm]
  · have hlt : k + m - r < r := by omega
    have he : (k + m) % r = k + m - r := by
      conv_lhs => rw [show k + m = (k + m - r) + 1 * r by omega]
      rw [Nat.add_mul_mod_self_right]
      exact Nat.mod_eq_of_lt hlt
    rw [he]
    have he2 : k + m - r + (r - k) = m := by omega
    rw [he2, Nat.mod_eq_of_lt hm]

lemma window_size_eq (c : Config) : c.window_size = 32 * c.num_nodes_window := by
  simp only [Config.window_size, NODE_SIZE]
  ring

lemma maskNode_length (sha : Bytes → Bytes) (c : Config) (wi : Nat) (rid : Bytes) (i : Nat)
    (hsha : ∀ l, (sha l).length = 32) : (maskNode sha c wi rid i).length = 32 :=
  truncate_hash_length _ (hsha _)

lemma expanderNode_length (sha : Bytes → Bytes) (ep : Nat → List Nat) (c : Config) (wi : Nat)
    (rid : Bytes) (li : Nat) (layerIn : Bytes) (i : Nat) (hsha : ∀ l, (sha l).length = 32) :
    (expanderNode sha ep c wi rid li layerIn i).length = 32 :=
  truncate_hash_length _ (hsha _)

lemma butterflyNode_length (sha : Bytes → Bytes) (bp : Nat → Nat → List Nat) (c : Config)
    (wi : Nat) (rid : Bytes) (li : Nat) (layerIn : Bytes) (i : Nat)
    (hsha : ∀ l, (sha l).length = 32) :
    (butterflyNode sha bp c wi rid li layerIn i).length = 32 :=
  truncate_hash_length _ (hsha _)

lemma mask_layer_ok (sha : Bytes → Bytes) (c : Config) (wi : Nat) (rid : Bytes)
    (layer_out : Bytes) (h : layer_out.length = c.window_size) :
    mask_layer sha c wi rid layer_out = .ok (nodesJoin (maskNode sha c wi rid)
      c.num_nodes_window) := by
  simp [mask_layer, h]

lemma mask_layer_err (sha : Bytes → Bytes) (c : Config) (wi : Nat) (rid : Bytes)
    (layer_out : Bytes) (e : Err) (h : mask_layer sha c wi rid layer_out = .error e) :
    e = .precondition := by
  simp only [mask_layer] at h
  split at h
  · cases h
  · cases h; rfl

lemma mask_layer_ok_out (sha : Bytes → Bytes) (c : Config) (wi : Nat) (rid : Bytes)
    (layer_out out : Bytes) (h : mask_layer sha c wi rid layer_out = .ok out) :
    out = nodesJoin (maskNode sha c wi rid) c.num_nodes_window := by
  simp only [mask_layer] at h
  split at h
  · cases h; rfl
  · cases h

lemma mask_layer_out_length (sha : Bytes → Bytes) (c : Config) (wi : Nat) (rid : Bytes)
    (layer_out out : Bytes) (hsha : ∀ l, (sha l).length = 32)
    (h : mask_layer sha c wi rid layer_out = .ok out) : out.length = c.window_size := by
  rw [mask_layer_ok_out sha c wi rid layer_out out h, window_size_eq]
  exact nodesJoin_length _ _ (fun i _ => maskNode_length sha c wi rid i hsha)

lemma expander_layer_ok (sha : Bytes → Bytes) (ep : Nat → List Nat) (c : Config) (wi : Nat)
    (rid : Bytes) (li : Nat) (layer_in layer_out : Bytes)
    (h1 : layer_in.length = layer_out.length) (h2 : layer_out.length = c.window_size)
    (h3 : 1 < li ∧ li ≤ c.num_expander_layers) :
    expander_layer sha ep c wi rid li layer_in layer_out =
      .ok (nodesJoin (expanderNode sha ep c wi rid li layer_in) c.num_nodes_window) := by
  simp [expander_layer, h1, h2, h3]

lemma expander_layer_err (sha : Bytes → Bytes) (ep : Nat → List Nat) (c : Config) (wi : Nat)
    (rid : Bytes) (li : Nat) (layer_in layer_out : Bytes) (e : Err)
    (h : expander_layer sha ep c wi rid li layer_in layer_out = .error e) :
    e = .precondition := by
  simp only [expander_layer] at h
  split at h
  · cases h; rfl
  · split at h
    · cases h; rfl
    · split at h
      · cases h
      · cases h; rfl

lemma expander_layer_ok_out (sha : Bytes → Bytes) (ep : Nat → List Nat) (c : Config) (wi : Nat)
    (rid : Bytes) (li : Nat) (layer_in layer_out out : Bytes)
    (h : expander_layer sha ep c wi rid li layer_in layer_out = .ok out) :
    out = nodesJoin (expanderNode sha ep c wi rid li layer_in) c.num_nodes_window := by
  simp only [expander_layer] at h
  split at h
  · cases h
  · split at h
    · cases h
    · split at h
      · cases h; rfl
      · cases h

lemma butterfly_layer_ok (sha : Bytes → Bytes) (bp : Nat → Nat → List Nat) (c : Config)
    (wi : Nat) (rid : Bytes) (li : Nat) (layer_in layer_out : Bytes)
    (h1 : layer_in.length = layer_out.length) (h2 : layer_out.length = c.window_size)
    (h3 : c.num_expander_layers < li ∧ li < c.num_expander_layers + c.num_butterfly_layers) :
    butterfly_layer sha bp c wi rid li layer_in layer_out =
      .ok (nodesJoin (butterflyNode sha bp c wi rid li layer_in) c.num_nodes_window) := by
  simp [butterfly_layer, h1, h2, h3]

lemma butterfly_layer_err (sha : Bytes → Bytes) (bp : Nat → Nat → List Nat) (c : Config)
    (wi : Nat) (rid : Bytes) (li : Nat) (layer_in layer_out : Bytes) (e : Err)
    (h : butterfly_layer sha bp c wi rid li layer_in layer_out = .error e) :
    e = .precondition := by
  simp only [butterfly_layer] at h
  split at h
  · cases h; rfl
  · split at h
    · cases h; rfl
    · split at h
      · cases h
      · cases h; rfl

lemma butterfly_layer_ok_out (sha : Bytes → Bytes) (bp : Nat → Nat → List Nat) (c : Config)
    (wi : Nat) (rid : Bytes) (li : Nat) (layer_in layer_out out : Bytes)
    (h : butterfly_layer sha bp c wi rid li layer_in layer_out = .ok out) :
    out = nodesJoin (butterflyNode sha bp c wi rid li layer_in) c.num_nodes_window := by
  simp only [butterfly_layer] at h
  split at h
  · cases h
  · split at h
    · cases h
    · split at h
      · cases h; rfl
      · cases h

lemma expander_layer_ok_length (sha : Bytes → Bytes) (ep : Nat → List Nat) (c : Config)
    (wi : Nat) (rid : Bytes) (li : Nat) (layer_in layer_out out : Bytes)
    (hsha : ∀ l, (sha l).length = 32)
    (h : expander_layer sha ep c wi rid li layer_in layer_out = .ok out) :
    out.length = c.window_size := by
  rw [expander_layer_ok_out sha ep c wi rid li layer_in layer_out out h, window_size_eq]
  exact nodesJoin_length _ _ (fun i _ => expanderNode_length sha ep c wi rid li layer_in i hsha)

lemma butterfly_layer_ok_length (sha : Bytes → Bytes) (bp : Nat → Nat → List Nat) (c : Config)
    (wi : Nat) (rid : Bytes) (li : Nat) (layer_in layer_out out : Bytes)
    (hsha : ∀ l, (sha l).length = 32)
    (h : butterfly_layer sha bp c wi rid li layer_in layer_out = .ok out) :
    out.length = c.window_size := by
  rw [butterfly_layer_ok_out sha bp c wi rid li layer_in layer_out out h, window_size_eq]
  exact nodesJoin_length _ _ (fun i _ => butterflyNode_length sha bp c wi rid li layer_in i hsha)

lemma encDecLoop_err (key : Nat → Bytes) (op : Nat → Nat → Nat) :
    ∀ (idxs : List Nat) (d : Bytes) (e : Err),
    (encDecLoop key op idxs d).2 = some e → e = .domain := by
  intro idxs
  induction idxs with
  | nil => intro d e h; simp [encDecLoop] at h
  | cons i rest ih =>
    intro d e h
    simp only [encDecLoop] at h
    split at h
    · cases h; rfl
    · split at h
      · cases h; rfl
      · exact ih _ e h

lemma encDecLoop_spec (key : Nat → Bytes) (op : Nat → Nat → Nat) (n : Nat) :
    ∀ (idxs : List Nat) (d : Bytes), d.length = 32 * n → idxs.Nodup →
    (∀ i ∈ idxs, i < n) →
    (∀ i ∈ idxs, tryFromBytes (key i) = some (fromLEBytes (key i))) →
    (∀ i ∈ idxs, tryFromBytes (getNode d i) = some (fromLEBytes (getNode d i))) →
    ∃ d', encDecLoop key op idxs d = (d', none) ∧ d'.length = 32 * n ∧
      (∀ j, j < n → j ∉ idxs → getNode d' j = getNode d j) ∧
      (∀ i ∈ idxs, getNode d' i =
        intoBytes (op (fromLEBytes (key i)) (fromLEBytes (getNode d i)))) := by
  intro idxs
  induction idxs with
  | nil =>
    intro d hd _ _ _ _
    exact ⟨d, rfl, hd, fun j _ _ => rfl, by simp⟩
  | cons i rest ih =>
    intro d hd hnd hmem hkey hdat
    have hi : i < n := hmem i (List.mem_cons_self i rest)
    have hkeyi := hkey i (List.mem_cons_self i rest)
    have hdati := hdat i (List.mem_cons_self i rest)
    have hbound : 32 * i + 32 ≤ d.length := by omega
    set d1 := setNode d i (intoBytes (op (fromLEBytes (key i)) (fromLEBytes (getNode d i))))
      with hd1
    have hstep : encDecLoop key op (i :: rest) d = encDecLoop key op rest d1 := by
      simp only [encDecLoop, hkeyi, hdati]
    have hd1len : d1.length = 32 * n := by
      rw [hd1, length_setNode d i _ hbound (intoBytes_length _)]
      exact hd
    have hnd' : rest.Nodup := (List.nodup_cons.mp hnd).2
    have hinot : i ∉ rest := (List.nodup_cons.mp hnd).1
    have hnodes : ∀ j, j ≠ i → getNode d1 j = getNode d j := by
      intro j hj
      exact getNode_setNode_ne d i j _ hbound (intoBytes_length _) (fun he => hj he.symm)
    obtain ⟨d', hrun, hlen, huntouched, hset⟩ := ih d1 hd1len hnd'
      (fun j hj => hmem j (List.mem_cons_of_mem i hj)) (fun j hj => hkey j
        (List.mem_cons_of_mem i hj))
      (by
        intro j hj
        rw [hnodes j (fun he => hinot (he ▸ hj))]
        exact hdat j (List.mem_cons_of_mem i hj))
    refine ⟨d', by rw [hstep, hrun], hlen, ?_, ?_⟩
    · intro j hj hjn
      have hjne : j ≠ i := fun he => hjn (he ▸ List.mem_cons_self i rest)
      have hjnr : j ∉ rest := fun hr => hjn (List.mem_cons_of_mem i hr)
      rw [huntouched j hj hjnr, hnodes j hjne]
    · intro j hj
      rcases List.mem_cons.mp hj with he | hr
      · subst he
        rw [huntouched j hi hinot, hd1,
          getNode_setNode_self d j _ hbound (intoBytes_length _)]
      · rw [hset j hr, hnodes j (fun he => hinot (he ▸ hr))]

lemma encdec_layer_err (sha : Bytes → Bytes) (bp : Nat → Nat → List Nat) (c : Config)
    (wi : Nat) (rid : Bytes) (li : Nat) (layer_in data : Bytes) (op : Nat → Nat → Nat) (e : Err)
    (h : (butterfly_encode_decode_layer sha bp c wi rid li layer_in data op).2 = some e) :
    e = .precondition ∨ e = .domain := by
  simp only [butterfly_encode_decode_layer] at h
  split at h
  · cases h; exact Or.inl rfl
  · split at h
    · cases h; exact Or.inl rfl
    · split at h
      · exact Or.inr (encDecLoop_err _ _ _ _ e h)
      · cases h; exact Or.inl rfl

lemma encdec_layer_fst_of_precondition (sha : Bytes → Bytes) (bp : Nat → Nat → List Nat)
    (c : Config) (wi : Nat) (rid : Bytes) (li : Nat) (layer_in data : Bytes)
    (op : Nat → Nat → Nat)
    (h : (butterfly_encode_decode_layer sha bp c wi rid li layer_in data op).2 =
      some Err.precondition) :
    (butterfly_encode_decode_layer sha bp c wi rid li layer_in data op).1 = data := by
  simp only [butterfly_encode_decode_layer] at h ⊢
  by_cases hA : layer_in.length ≠ data.length
  · rw [if_pos hA]
  · rw [if_neg hA] at h ⊢
    by_cases hB : layer_in.length ≠ c.window_size
    · rw [if_pos hB]
    · rw [if_neg hB] at h ⊢
      by_cases hC : li = c.num_layers
      · rw [if_pos hC] at h
        exact absurd (encDecLoop_err _ _ _ _ _ h) (by simp)
      · rw [if_neg hC]

lemma encdec_layer_spec (sha : Bytes → Bytes) (bp : Nat → Nat → List Nat) (c : Config)
    (wi : Nat) (rid : Bytes) (layer_in data : Bytes) (op : Nat → Nat → Nat)
    (hsha : ∀ l, (sha l).length = 32)
    (h1 : layer_in.length = c.window_size) (h2 : data.length = c.window_size)
    (hdat : ∀ i, i < c.num_nodes_window → fromLEBytes (getNode data i) < r) :
    ∃ d', butterfly_encode_decode_layer sha bp c wi rid c.num_layers layer_in data op =
      (d', none) ∧ d'.length = c.window_size ∧
      ∀ i, i < c.num_nodes_window → getNode d' i =
        intoBytes (op (fromLEBytes (butterflyNode sha bp c wi rid c.num_layers layer_in i))
          (fromLEBytes (getNode data i))) := by
  have hlen32 : data.length = 32 * c.num_nodes_window := by rw [h2, window_size_eq]
  obtain ⟨d', hrun, hlen, _, hset⟩ :=
    encDecLoop_spec (butterflyNode sha bp c wi rid c.num_layers layer_in) op
      c.num_nodes_window (List.range c.num_nodes_window) data hlen32
      (List.nodup_range _) (fun i hi => List.mem_range.mp hi)
      (fun i _ => tryFromBytes_truncate _ (hsha _))
      (fun i hi => tryFromBytes_eq_some_of_valid _
        (getNode_length data i (by have := List.mem_range.mp hi; omega))
        (hdat i (List.mem_range.mp hi)))
  refine ⟨d', ?_, by rw [hlen, window_size_eq], fun i hi => hset i (List.mem_range.mpr hi)⟩
  simp only [butterfly_encode_decode_layer, h1, h2]
  simp [hrun]

lemma layerTreeFold_err (f : Nat → Bytes → Bytes → Except Err Bytes)
    (hf : ∀ li p q e, f li p q = .error e → e = .precondition) :
    ∀ (idxs : List Nat) (st : Bytes × Bytes × List Nat × List (Nat × Bytes)) (e : Err),
    layerTreeFold f idxs st = .error e → e = .precondition ∨ e = .removeFromEmpty := by
  intro idxs
  induction idxs with
  | nil => intro st e h; simp [layerTreeFold] at h
  | cons li rest ih =>
    rintro ⟨p, q, cfgs, trees⟩ e h
    rcases cfgs with _ | ⟨sc, cfgs1⟩ <;> simp only [layerTreeFold] at h
    · split at h
      · rename_i he
        cases h
        exact Or.inl (hf li p q _ he)
      · cases h
        exact Or.inr rfl
    · split at h
      · rename_i he
        cases h
        exact Or.inl (hf li p q _ he)
      · exact ih _ e h

lemma layerTreeFold_trees (f : Nat → Bytes → Bytes → Except Err Bytes) :
    ∀ (idxs : List Nat) (p q : Bytes) (cfgs : List Nat) (trees : List (Nat × Bytes))
    (p' q' : Bytes) (cfgs' : List Nat) (trees' : List (Nat × Bytes)),
    layerTreeFold f idxs (p, q, cfgs, trees) = .ok (p', q', cfgs', trees') →
    ∃ d : List (Nat × Bytes), trees' = trees ++ d ∧ d.length = idxs.length ∧
      cfgs = d.map Prod.fst ++ cfgs' := by
  intro idxs
  induction idxs with
  | nil =>
    intro p q cfgs trees p' q' cfgs' trees' h
    simp only [layerTreeFold] at h
    cases h
    exact ⟨[], by simp⟩
  | cons li rest ih =>
    intro p q cfgs trees p' q' cfgs' trees' h
    rcases cfgs with _ | ⟨sc, cfgs1⟩ <;> simp only [layerTreeFold] at h
    · split at h
      · cases h
      · cases h
    · split at h
      · cases h
      · rename_i q1 _
        obtain ⟨d, hd1, hd2, hd3⟩ := ih q1 p cfgs1 (trees ++ [(sc, q1)]) p' q' cfgs' trees' h
        refine ⟨(sc, q1) :: d, ?_, by simp [hd2], by simp [hd3]⟩
        rw [hd1, List.append_assoc]
        rfl

lemma layerTreeFold_foldPlain (f : Nat → Bytes → Bytes → Except Err Bytes) :
    ∀ (idxs : List Nat) (p q : Bytes) (cfgs : List Nat) (trees : List (Nat × Bytes))
    (p' q' : Bytes) (cfgs' : List Nat) (trees' : List (Nat × Bytes)),
    layerTreeFold f idxs (p, q, cfgs, trees) = .ok (p', q', cfgs', trees') →
    foldPlain f idxs (p, q) = .ok (p', q') := by
  intro idxs
  induction idxs with
  | nil =>
    intro p q cfgs trees p' q' cfgs' trees' h
    simp only [layerTreeFold] at h
    cases h
    rfl
  | cons li rest ih =>
    intro p q cfgs trees p' q' cfgs' trees' h
    rcases cfgs with _ | ⟨sc, cfgs1⟩ <;> simp only [layerTreeFold] at h
    · split at h
      · cases h
      · cases h
    · split at h
      · cases h
      · rename_i q1 hq1
        simp only [foldPlain, hq1]
        exact ih q1 p cfgs1 _ p' q' cfgs' trees' h

lemma foldPlain_length (f : Nat → Bytes → Bytes → Except Err Bytes) (ws : Nat)
    (hf : ∀ li p q out, f li p q = .ok out → out.length = ws) :
    ∀ (idxs : List Nat) (p q p' q' : Bytes),
    foldPlain f idxs (p, q) = .ok (p', q') → p.length = ws → q.length = ws →
    p'.length = ws ∧ q'.length = ws := by
  intro idxs
  induction idxs with
  | nil =>
    intro p q p' q' h hp hq
    simp only [foldPlain] at h
    cases h
    exact ⟨hp, hq⟩
  | cons li rest ih =>
    intro p q p' q' h hp hq
    simp only [foldPlain] at h
    split at h
    · cases h
    · rename_i q1 hq1
      exact ih q1 p p' q' h (hf li p q q1 hq1) hp

lemma foldPlain_congr (f g : Nat → Bytes → Bytes → Except Err Bytes)
    (h : ∀ li p q, f li p q = g li p q) :
    ∀ (idxs : List Nat) (st : Bytes × Bytes), foldPlain f idxs st = foldPlain g idxs st := by
  intro idxs
  induction idxs with
  | nil => intro st; rfl
  | cons li rest ih =>
    rintro ⟨p, q⟩
    simp only [foldPlain, h li p q]
    split
    · rfl
    · exact ih _

lemma layerTreeFold_congr (f g : Nat → Bytes → Bytes → Except Err Bytes)
    (h : ∀ li p q, f li p q = g li p q) :
    ∀ (idxs : List Nat) (st : Bytes × Bytes × List Nat × List (Nat × Bytes)),
    layerTreeFold f idxs st = layerTreeFold g idxs st := by
  intro idxs
  induction idxs with
  | nil => intro st; rfl
  | cons li rest ih =>
    rintro ⟨p, q, cfgs, trees⟩
    simp only [layerTreeFold, h li p q]
    split
    · rfl
    · split
      · rfl
      · exact ih _

lemma encode_ok_shape (sha : Bytes → Bytes) (ep : Nat → List Nat) (bp : Nat → Nat → List Nat)
    (c : Config) (cfgs : List Nat) (wi : Nat) (rid data d' : Bytes)
    (trees : List (Nat × Bytes)) (rep : Nat × Bytes)
    (h : encode_with_trees sha ep bp c cfgs wi rid data = (d', .ok (trees, rep))) :
    cfgs.length = c.num_layers ∧
    ∃ (prev : Bytes) (sc0 : Nat) (cfgs0 : List Nat)
      (p1 q1 : Bytes) (cfgs1 : List Nat) (trees1 : List (Nat × Bytes))
      (p2 q2 : Bytes) (cfgs2 : List Nat) (scF : Nat) (rest2 : List Nat),
      cfgs = sc0 :: cfgs0 ∧
      mask_layer sha c wi rid (List.replicate c.window_size 0) = .ok prev ∧
      layerTreeFold (expander_layer sha ep c wi rid) (expanderIndices c)
        (prev, List.replicate c.window_size 0, cfgs0, [(sc0, prev)]) =
        .ok (p1, q1, cfgs1, trees1) ∧
      layerTreeFold (butterfly_layer sha bp c wi rid) (butterflyIndices c)
        (p1, q1, cfgs1, trees1) = .ok (p2, q2, cfgs2, trees) ∧
      butterfly_encode_layer sha bp c wi rid c.num_layers p2 data = (d', none) ∧
      cfgs2 = scF :: rest2 ∧ rep = (scF, d') := by
  simp only [ encode_with_trees] at h
  split at h
  · simp at h
  · rename_i hlen
    refine ⟨not_not.mp hlen, ?_⟩
    cases hmask : mask_layer sha c wi rid (List.replicate c.window_size 0) with
    | error e => rw [hmask] at h; simp at h
    | ok prev =>
      rw [hmask] at h
      rcases cfgs with _ | ⟨sc0, cfgs0⟩
      · simp at h
      · simp only [] at h
        cases hfold1 : layerTreeFold (expander_layer sha ep c wi rid) (expanderIndices c)
            (prev, List.replicate c.window_size 0, cfgs0, [(sc0, prev)]) with
        | error e => rw [hfold1] at h; simp at h
        | ok st1 =>
          rw [hfold1] at h
          simp only [] at h
          obtain ⟨p1, q1, cfgs1, trees1⟩ := st1
          cases hfold2 : layerTreeFold (butterfly_layer sha bp c wi rid) (butterflyIndices c)
              (p1, q1, cfgs1, trees1) with
          | error e => rw [hfold2] at h; simp at h
          | ok st2 =>
            rw [hfold2] at h
            simp only [] at h
            obtain ⟨p2, q2, cfgs2, trees2⟩ := st2
            cases hencdec : butterfly_encode_layer sha bp c wi rid c.num_layers p2 data with
            | mk d'0 oe =>
              rw [hencdec] at h
              simp only [] at h
              cases oe with
              | some e => simp at h
              | none =>
                rcases cfgs2 with _ | ⟨scF, rest2⟩
                · simp at h
                · simp only [Prod.mk.injEq, Except.ok.injEq] at h
                  obtain ⟨hd', htrees, hrep⟩ := h
                  subst hd'
                  exact ⟨prev, sc0, cfgs0, p1, q1, cfgs1, trees1, p2, q2,
                    scF :: rest2, scF, rest2, rfl, rfl, hfold1,
                    by rw [← htrees]; exact hfold2, hencdec, rfl, hrep.symm⟩

lemma expanderIndices_length (c : Config) :
    (expanderIndices c).length = c.num_expander_layers - 1 := by
  simp [expanderIndices]

lemma butterflyIndices_length (c : Config) :
    (butterflyIndices c).length = c.num_layers - 1 - c.num_expander_layers := by
  simp [butterflyIndices]

/-- A concrete hash instance used by witnesses: the all-zero digest. -/
def shaZero : Bytes → Bytes := fun _ => List.replicate 32 0

/-- A concrete hash instance used by the counterexample: a digest whose last
byte is 255, so the truncated key is the nonzero scalar 63 * 256 ^ 31. -/
def shaHigh : Bytes → Bytes := fun _ => List.replicate 31 0 ++ [255]

/-- Concrete expander parents for witnesses. -/
def epNone : Nat → List Nat := fun _ => []

/-- Concrete butterfly parents for witnesses. -/
def bpNone : Nat → Nat → List Nat := fun _ _ => []

/-- A one-node-window configuration for witnesses. -/
def cOne : Config := ⟨1, 1, 1, 2, 1, 1, 2048⟩

/-- A two-node-window configuration for witnesses. -/
def cTwo : Config := ⟨1, 2, 1, 2, 1, 1, 2048⟩

/-- All-zero 32-byte replica id. -/
def ridZero : Bytes := List.replicate 32 0

/-- All-zero one-node data buffer (the zero scalar). -/
def dataZero : Bytes := List.replicate 32 0

/-- Two-node buffer: a valid zero scalar followed by an invalid all-255 node
(its little-endian value 2 ^ 256 - 1 exceeds the field modulus). -/
def dataBad : Bytes := List.replicate 32 0 ++ List.replicate 32 255

/-- A concrete schedule writing nodes in ascending order. -/
def schedUp : Nat → List Nat := fun _ => [0, 1]

/-- A concrete schedule writing nodes in descending order. -/
def schedDown : Nat → List Nat := fun _ => [1, 0]

/-- Claim C5: for every config, window index, replica id and output buffer of
length window_size_bytes, mask_layer succeeds and writes into the i-th node
the truncated SHA-256 digest of hash_prefix(1, window_index * num_nodes_window
+ i) concatenated with the replica id, for every local node index i. -/
theorem mask_layer_writes (sha : Bytes → Bytes) (c : Config) (wi : Nat)
    (rid layer_out : Bytes) (hsha : ∀ l, (sha l).length = 32)
    (hlen : layer_out.length = c.window_size) :
    ∃ out, mask_layer sha c wi rid layer_out = .ok out ∧ out.length = c.window_size ∧
      ∀ i, i < c.num_nodes_window → getNode out i =
        truncate_hash (sha ( hash_prefix 1 (wi * c.num_nodes_window + i) ++ rid)) := by
  refine ⟨nodesJoin (maskNode sha c wi rid) c.num_nodes_window,
    mask_layer_ok sha c wi rid layer_out hlen, ?_, ?_⟩
  · rw [window_size_eq]
    exact nodesJoin_length _ _ (fun i _ => maskNode_length sha c wi rid i hsha)
  · intro i hi
    rw [getNode_nodesJoin _ _ i (fun j _ => maskNode_length sha c wi rid j hsha) hi]
    rfl

/-- Witness for mask_layer_writes: the one-node window with the zero hash. -/
theorem mask_layer_writes_witness :
    ∃ out, mask_layer shaZero cOne 0 ridZero (List.replicate 32 0) = .ok out ∧
      out.length = cOne.window_size ∧
      ∀ i, i < cOne.num_nodes_window → getNode out i =
        truncate_hash (shaZero ( hash_prefix 1 (0 * cOne.num_nodes_window + i) ++ ridZero)) :=
  mask_layer_writes shaZero cOne 0 ridZero (List.replicate 32 0)
    (fun l => by simp [shaZero]) (by decide)

/-- Claim C6: with correctly sized buffers, expander_layer fails with a
PreconditionError exactly when the layer index is at most 1 or above
num_expander_layers; butterfly_layer exactly when it is at most
num_expander_layers or at least num_expander_layers + num_butterfly_layers;
and the butterfly encode/decode layer exactly when it differs from
num_expander_layers + num_butterfly_layers. -/
theorem layer_index_preconditions (sha : Bytes → Bytes) (ep : Nat → List Nat)
    (bp : Nat → Nat → List Nat) (c : Config) (wi : Nat) (rid : Bytes) (li : Nat)
    (layer_in layer_out data : Bytes)
    (h1 : layer_in.length = c.window_size) (h2 : layer_out.length = c.window_size)
    (h3 : data.length = c.window_size) :
    (expander_layer sha ep c wi rid li layer_in layer_out = .error .precondition ↔
      (li ≤ 1 ∨ c.num_expander_layers < li)) ∧
    (butterfly_layer sha bp c wi rid li layer_in layer_out = .error .precondition ↔
      (li ≤ c.num_expander_layers ∨ c.num_expander_layers + c.num_butterfly_layers ≤ li)) ∧
    (∀ op, (butterfly_encode_decode_layer sha bp c wi rid li layer_in data op).2 =
      some .precondition ↔ li ≠ c.num_expander_layers + c.num_butterfly_layers) := by
  have hio : ¬(layer_in.length ≠ layer_out.length) := by rw [h1, h2]; simp
  have how : ¬(layer_out.length ≠ c.window_size) := by rw [h2]; simp
  have hiw : ¬(layer_in.length ≠ c.window_size) := by rw [h1]; simp
  have hid : ¬(layer_in.length ≠ data.length) := by rw [h1, h3]; simp
  refine ⟨?_, ?_, ?_⟩
  · simp only [expander_layer, if_neg hio, if_neg how]
    by_cases hc : 1 < li ∧ li ≤ c.num_expander_layers
    · rw [if_pos hc]
      constructor
      · intro h
        cases h
      · intro h
        omega
    · rw [if_neg hc]
      constructor
      · intro _
        omega
      · intro _
        rfl
  · simp only [butterfly_layer, if_neg hio, if_neg how]
    by_cases hc : c.num_expander_layers < li ∧
        li < c.num_expander_layers + c.num_butterfly_layers
    · rw [if_pos hc]
      constructor
      · intro h
        cases h
      · intro h
        omega
    · rw [if_neg hc]
      constructor
      · intro _
        omega
      · intro _
        rfl
  · intro op
    simp only [butterfly_encode_decode_layer, if_neg hid, if_neg hiw]
    by_cases hc : li = c.num_layers
    · rw [if_pos hc]
      constructor
      · intro h
        have := encDecLoop_err _ _ _ _ _ h
        cases this
      · intro h
        exact absurd hc (by simpa [Config.num_layers] using h)
    · rw [if_neg hc]
      constructor
      · intro _
        simpa [Config.num_layers] using hc
      · intro _
        rfl

/-- Witness for layer_index_preconditions on the one-node window at layer 5. -/
theorem layer_index_preconditions_witness :
    (expander_layer shaZero epNone cOne 0 ridZero 5 (List.replicate 32 0)
      (List.replicate 32 0) = .error .precondition ↔
      (5 ≤ 1 ∨ cOne.num_expander_layers < 5)) ∧
    (butterfly_layer shaZero bpNone cOne 0 ridZero 5 (List.replicate 32 0)
      (List.replicate 32 0) = .error .precondition ↔
      (5 ≤ cOne.num_expander_layers ∨
        cOne.num_expander_layers + cOne.num_butterfly_layers ≤ 5)) ∧
    (∀ op, (butterfly_encode_decode_layer shaZero bpNone cOne 0 ridZero 5
      (List.replicate 32 0) (List.replicate 32 0) op).2 = some .precondition ↔
      5 ≠ cOne.num_expander_layers + cOne.num_butterfly_layers) :=
  layer_index_preconditions shaZero epNone bpNone cOne 0 ridZero 5
    (List.replicate 32 0) (List.replicate 32 0) (List.replicate 32 0)
    (by decide) (by decide) (by decide)

/-- Claim C7: each of expander_layer, butterfly_layer and the butterfly
encode/decode layer returns a PreconditionError, without touching the output
buffer, when the two buffer lengths differ or either differs from
window_size_bytes = num_nodes_window * 32. -/
theorem layer_length_preconditions (sha : Bytes → Bytes) (ep : Nat → List Nat)
    (bp : Nat → Nat → List Nat) (c : Config) (wi : Nat) (rid : Bytes) (li : Nat)
    (layer_in layer_out : Bytes)
    (hmis : layer_in.length ≠ layer_out.length ∨ layer_in.length ≠ c.window_size ∨
      layer_out.length ≠ c.window_size) :
    expander_layer sha ep c wi rid li layer_in layer_out = .error .precondition ∧
    butterfly_layer sha bp c wi rid li layer_in layer_out = .error .precondition ∧
    ∀ op, butterfly_encode_decode_layer sha bp c wi rid li layer_in layer_out op =
      (layer_out, some .precondition) := by
  by_cases he : layer_in.length = layer_out.length
  · have hw : layer_in.length ≠ c.window_size := by
      rcases hmis with h | h | h
      · exact absurd he h
      · exact h
      · rw [he]; exact h
    have hw2 : layer_out.length ≠ c.window_size := by rw [← he]; exact hw
    have hio : ¬(layer_in.length ≠ layer_out.length) := by rw [he]; simp
    refine ⟨?_, ?_, ?_⟩
    · rw [expander_layer, if_neg hio, if_pos hw2]
    · rw [butterfly_layer, if_neg hio, if_pos hw2]
    · intro op
      rw [butterfly_encode_decode_layer, if_neg (by rw [he]; simp), if_pos hw]
  · refine ⟨?_, ?_, ?_⟩
    · rw [expander_layer, if_pos he]
    · rw [butterfly_layer, if_pos he]
    · intro op
      rw [butterfly_encode_decode_layer, if_pos he]

/-- Witness for layer_length_preconditions: empty input against a 32-byte
output on the one-node window. -/
theorem layer_length_preconditions_witness :
    expander_layer shaZero epNone cOne 0 ridZero 2 [] (List.replicate 32 0) =
      .error .precondition ∧
    butterfly_layer shaZero bpNone cOne 0 ridZero 2 [] (List.replicate 32 0) =
      .error .precondition ∧
    ∀ op, butterfly_encode_decode_layer shaZero bpNone cOne 0 ridZero 2 []
      (List.replicate 32 0) op = (List.replicate 32 0, some .precondition) :=
  layer_length_preconditions shaZero epNone bpNone cOne 0 ridZero 2 []
    (List.replicate 32 0) (by decide)

/-- Claim C3: whenever encode_with_trees succeeds, the returned vector of
intermediate-layer trees has length num_expander_layers + num_butterfly_layers
- 1 (one tree per layer except the replica layer). -/
theorem intermediate_trees_count (sha : Bytes → Bytes) (ep : Nat → List Nat)
    (bp : Nat → Nat → List Nat) (c : Config) (cfgs : List Nat) (wi : Nat)
    (rid data d' : Bytes) (trees : List (Nat × Bytes)) (rep : Nat × Bytes)
    (h : encode_with_trees sha ep bp c cfgs wi rid data = (d', .ok (trees, rep))) :
    trees.length = c.num_expander_layers + c.num_butterfly_layers - 1 := by
  obtain ⟨hlen, prev, sc0, cfgs0, p1, q1, cfgs1, trees1, p2, q2, cfgs2, scF, rest2,
    hcfg, hmask, hfold1, hfold2, hencdec, hc2, hrep⟩ :=
    encode_ok_shape sha ep bp c cfgs wi rid data d' trees rep h
  obtain ⟨del1, hd1, hd1len, hd1cfg⟩ :=
    layerTreeFold_trees _ _ _ _ _ _ _ _ _ _ hfold1
  obtain ⟨del2, hd2, hd2len, hd2cfg⟩ :=
    layerTreeFold_trees _ _ _ _ _ _ _ _ _ _ hfold2
  rw [expanderIndices_length] at hd1len
  rw [butterflyIndices_length] at hd2len
  have hclen : cfgs.length = c.num_expander_layers + c.num_butterfly_layers := by
    rw [hlen]; rfl
  have hL : c.num_layers = c.num_expander_layers + c.num_butterfly_layers := rfl
  have htlen : trees.length = trees1.length + del2.length := by
    rw [hd2, List.length_append]
  have ht1len : trees1.length = 1 + del1.length := by
    rw [hd1, List.length_append]
    simp
  have hcfglens : cfgs.length = 1 + (del1.map Prod.fst).length +
      ((del2.map Prod.fst).length + cfgs2.length) := by
    rw [hcfg, hd1cfg, hd2cfg]
    simp [List.length_append]
    omega
  have hc2len : cfgs2.length = 1 + rest2.length := by rw [hc2]; simp; omega
  simp only [List.length_map] at hcfglens
  rw [hL] at hd2len
  omega

/-- Witness for intermediate_trees_count: a full one-node-window run with the
zero hash, one expander and one butterfly layer. -/
theorem intermediate_trees_count_witness :
    ∃ d' trees rep,
      encode_with_trees shaZero epNone bpNone cOne [0, 1] 0 ridZero dataZero =
        (d', .ok (trees, rep)) ∧
      trees.length = cOne.num_expander_layers + cOne.num_butterfly_layers - 1 := by
  refine ⟨dataZero, [(0, dataZero)], (1, dataZero), by rfl, ?_⟩
  exact intermediate_trees_count shaZero epNone bpNone cOne [0, 1] 0 ridZero dataZero
    dataZero [(0, dataZero)] (1, dataZero) (by rfl)

lemma encode_err_shape (sha : Bytes → Bytes) (ep : Nat → List Nat) (bp : Nat → Nat → List Nat)
    (c : Config) (cfgs : List Nat) (wi : Nat) (rid data d' : Bytes) (e : Err)
    (h : encode_with_trees sha ep bp c cfgs wi rid data = (d', .error e)) :
    (e = .assertFail → d' = data) ∧ (e = .precondition → d' = data) ∧
    (cfgs.length = c.num_layers → e ≠ .assertFail) := by
  simp only [ encode_with_trees] at h
  split at h
  · rename_i hcond
    simp only [Prod.mk.injEq, Except.error.injEq] at h
    exact ⟨fun _ => h.1.symm, fun _ => h.1.symm, fun hl => absurd hl hcond⟩
  · rename_i hlen
    cases hmask : mask_layer sha c wi rid (List.replicate c.window_size 0) with
    | error e1 =>
      rw [hmask] at h
      simp only [Prod.mk.injEq, Except.error.injEq] at h
      have he1 : e1 = .precondition := mask_layer_err _ _ _ _ _ _ hmask
      refine ⟨fun _ => h.1.symm, fun _ => h.1.symm, fun _ hcontra => ?_⟩
      rw [← h.2, he1] at hcontra
      cases hcontra
    | ok prev =>
      rw [hmask] at h
      rcases cfgs with _ | ⟨sc0, cfgs0⟩
      · simp only [] at h
        simp only [Prod.mk.injEq, Except.error.injEq] at h
        refine ⟨fun _ => h.1.symm, fun _ => h.1.symm, fun _ hcontra => ?_⟩
        rw [← h.2] at hcontra
        cases hcontra
      · simp only [] at h
        cases hfold1 : layerTreeFold (expander_layer sha ep c wi rid) (expanderIndices c)
            (prev, List.replicate c.window_size 0, cfgs0, [(sc0, prev)]) with
        | error e1 =>
          rw [hfold1] at h
          simp only [Prod.mk.injEq, Except.error.injEq] at h
          have he1 := layerTreeFold_err _ (fun li p q e2 hp =>
            expander_layer_err sha ep c wi rid li p q e2 hp) _ _ _ hfold1
          refine ⟨fun _ => h.1.symm, fun _ => h.1.symm, fun _ hcontra => ?_⟩
          rw [← h.2] at hcontra
          rcases he1 with he1 | he1 <;> rw [he1] at hcontra <;> cases hcontra
        | ok st1 =>
          rw [hfold1] at h
          simp only [] at h
          obtain ⟨p1, q1, cfgs1, trees1⟩ := st1
          cases hfold2 : layerTreeFold (butterfly_layer sha bp c wi rid)
              (butterflyIndices c) (p1, q1, cfgs1, trees1) with
          | error e1 =>
            rw [hfold2] at h
            simp only [Prod.mk.injEq, Except.error.injEq] at h
            have he1 := layerTreeFold_err _ (fun li p q e2 hp =>
              butterfly_layer_err sha bp c wi rid li p q e2 hp) _ _ _ hfold2
            refine ⟨fun _ => h.1.symm, fun _ => h.1.symm, fun _ hcontra => ?_⟩
            rw [← h.2] at hcontra
            rcases he1 with he1 | he1 <;> rw [he1] at hcontra <;> cases hcontra
          | ok st2 =>
            rw [hfold2] at h
            simp only [] at h
            obtain ⟨p2, q2, cfgs2, trees2⟩ := st2
            cases hencdec : butterfly_encode_layer sha bp c wi rid c.num_layers p2 data with
            | mk d'0 oe =>
              rw [hencdec] at h
              simp only [] at h
              cases oe with
              | some e1 =>
                simp only [Prod.mk.injEq, Except.error.injEq] at h
                have he1 := encdec_layer_err sha bp c wi rid c.num_layers p2 data
                  encodeOp e1 (by rw [show butterfly_encode_decode_layer sha bp c wi rid
                    c.num_layers p2 data encodeOp = butterfly_encode_layer sha bp c wi rid
                    c.num_layers p2 data from rfl, hencdec])
                refine ⟨?_, ?_, fun _ hcontra => ?_⟩
                · intro hea
                  have hcb : e1 = Err.assertFail := by rw [h.2, hea]
                  rcases he1 with he1 | he1 <;> rw [he1] at hcb <;> cases hcb
                · intro hep
                  rw [← h.1]
                  have hfst : (butterfly_encode_decode_layer sha bp c wi rid c.num_layers
                      p2 data encodeOp).1 = data := by
                    apply encdec_layer_fst_of_precondition
                    rw [show butterfly_encode_decode_layer sha bp c wi rid c.num_layers
                      p2 data encodeOp = butterfly_encode_layer sha bp c wi rid c.num_layers
                      p2 data from rfl, hencdec]
                    rw [← h.2] at hep
                    rw [hep]
                  rw [show butterfly_encode_decode_layer sha bp c wi rid c.num_layers
                    p2 data encodeOp = butterfly_encode_layer sha bp c wi rid c.num_layers
                    p2 data from rfl, hencdec] at hfst
                  exact hfst
                · have hcb : e1 = Err.assertFail := by rw [h.2, hcontra]
                  rcases he1 with he1 | he1 <;> rw [he1] at hcb <;> cases hcb
              | none =>
                rcases cfgs2 with _ | ⟨scF, rest2⟩
                · simp only [Prod.mk.injEq, Except.error.injEq] at h
                  refine ⟨fun hea => ?_, fun hep => ?_, fun _ hcontra => ?_⟩
                  · rw [← h.2] at hea
                    cases hea
                  · rw [← h.2] at hep
                    cases hep
                  · rw [← h.2] at hcontra
                    cases hcontra
                · simp at h

/-- Claim C9: when store_configs.len() differs from num_layers,
encode_with_trees fails through the assert (a panic), not a returned
PreconditionError; under the precondition that the lengths agree the
assertion never fires, and on success exactly one store config is consumed
per layer, in order: the configs of the intermediate trees followed by the
replica tree's config are the given list. -/
theorem store_configs_assert_behavior (sha : Bytes → Bytes) (ep : Nat → List Nat)
    (bp : Nat → Nat → List Nat) (c : Config) (cfgs : List Nat) (wi : Nat)
    (rid data : Bytes) :
    (cfgs.length ≠ c.num_layers →
      encode_with_trees sha ep bp c cfgs wi rid data = (data, .error .assertFail)) ∧
    (cfgs.length = c.num_layers →
      (∀ d', encode_with_trees sha ep bp c cfgs wi rid data ≠ (d', .error .assertFail)) ∧
      (∀ d' trees rep,
        encode_with_trees sha ep bp c cfgs wi rid data = (d', .ok (trees, rep)) →
        trees.map Prod.fst ++ [rep.1] = cfgs)) := by
  refine ⟨?_, ?_⟩
  · intro hne
    rw [ encode_with_trees, if_pos hne]
  · intro hlen
    refine ⟨?_, ?_⟩
    · intro d' hcontra
      cases hres : (encode_with_trees sha ep bp c cfgs wi rid data).2 with
      | error e =>
        have heq : encode_with_trees sha ep bp c cfgs wi rid data =
            ((encode_with_trees sha ep bp c cfgs wi rid data).1, .error e) := by
          rw [← hres]
        rw [heq] at hcontra
        simp only [Prod.mk.injEq, Except.error.injEq] at hcontra
        exact (encode_err_shape sha ep bp c cfgs wi rid data _ e heq).2.2 hlen hcontra.2
      | ok v =>
        have heq : encode_with_trees sha ep bp c cfgs wi rid data =
            ((encode_with_trees sha ep bp c cfgs wi rid data).1, .ok v) := by
          rw [← hres]
        rw [heq] at hcontra
        simp at hcontra
    · intro d' trees rep h
      obtain ⟨_, prev, sc0, cfgs0, p1, q1, cfgs1, trees1, p2, q2, cfgs2, scF, rest2,
        hcfg, hmask, hfold1, hfold2, hencdec, hc2, hrep⟩ :=
        encode_ok_shape sha ep bp c cfgs wi rid data d' trees rep h
      obtain ⟨del1, hd1, hd1len, hd1cfg⟩ :=
        layerTreeFold_trees _ _ _ _ _ _ _ _ _ _ hfold1
      obtain ⟨del2, hd2, hd2len, hd2cfg⟩ :=
        layerTreeFold_trees _ _ _ _ _ _ _ _ _ _ hfold2
      rw [expanderIndices_length] at hd1len
      rw [butterflyIndices_length] at hd2len
      have hrest : rest2 = [] := by
        apply List.eq_nil_of_length_eq_zero
        have hclen : cfgs.length = c.num_expander_layers + c.num_butterfly_layers := by
          rw [hlen]; rfl
        have hcfglens : cfgs.length = 1 + (del1.map Prod.fst).length +
            ((del2.map Prod.fst).length + cfgs2.length) := by
          rw [hcfg, hd1cfg, hd2cfg]
          simp [List.length_append]
          omega
        have hc2len : cfgs2.length = 1 + rest2.length := by rw [hc2]; simp; omega
        simp only [List.length_map] at hcfglens
        have hL : c.num_layers = c.num_expander_layers + c.num_butterfly_layers := rfl
        rw [hL] at hd2len
        omega
      rw [hcfg, hd1cfg, hd2cfg, hc2, hrest, hd2, hd1, hrep]
      simp

/-- Witness for store_configs_assert_behavior: the one-node-window run. -/
theorem store_configs_assert_behavior_witness :
    encode_with_trees shaZero epNone bpNone cOne [0] 0 ridZero dataZero =
      (dataZero, .error .assertFail) ∧
    [(0, dataZero)].map Prod.fst ++ [(1, dataZero).1] = [0, 1] := by
  constructor
  · exact (store_configs_assert_behavior shaZero epNone bpNone cOne [0] 0 ridZero
      dataZero).1 (by decide)
  · exact ((store_configs_assert_behavior shaZero epNone bpNone cOne [0, 1] 0 ridZero
      dataZero).2 (by decide)).2 dataZero [(0, dataZero)] (1, dataZero) (by rfl)

lemma decode_err_shape (sha : Bytes → Bytes) (ep : Nat → List Nat) (bp : Nat → Nat → List Nat)
    (c : Config) (wi : Nat) (rid encoded d' : Bytes) (e : Err)
    (h : decode sha ep bp c wi rid encoded = (d', some e)) (hep : e = .precondition) :
    d' = encoded := by
  simp only [decode] at h
  cases hdl : decodeLayers sha ep bp c wi rid with
  | error e1 =>
    rw [hdl] at h
    simp only [Prod.mk.injEq, Option.some.injEq] at h
    exact h.1.symm
  | ok prev =>
    rw [hdl] at h
    simp only [] at h
    have hsnd : (butterfly_encode_decode_layer sha bp c wi rid c.num_layers prev encoded
        decodeOp).2 = some Err.precondition := by
      rw [show butterfly_encode_decode_layer sha bp c wi rid c.num_layers prev encoded
        decodeOp = butterfly_decode_layer sha bp c wi rid c.num_layers prev encoded
        from rfl, h, hep]
    have hfst := encdec_layer_fst_of_precondition sha bp c wi rid c.num_layers prev encoded
      decodeOp hsnd
    rw [show butterfly_encode_decode_layer sha bp c wi rid c.num_layers prev encoded
      decodeOp = butterfly_decode_layer sha bp c wi rid c.num_layers prev encoded
      from rfl, h] at hfst
    exact hfst

/-- Counterexample to claim C4 as stated: on a two-node window whose second
node is not a valid field scalar, decode returns a DomainError while the
caller's buffer has already been partially decoded (the first node was
rewritten before the failure), so an error does expose a partially processed
buffer. -/
theorem decode_error_modified_buffer_counterexample :
    (decode shaHigh epNone bpNone cTwo 0 ridZero dataBad).2 = some Err.domain ∧
    (decode shaHigh epNone bpNone cTwo 0 ridZero dataBad).1 ≠ dataBad := by
  constructor
  · decide
  · decide

/-- Claim C4 amended: when encode_with_trees fails through the store-config
assertion or a PreconditionError, and when decode fails with a
PreconditionError, the caller's buffer is returned unchanged (no partial
encode/decode); a DomainError inside the final layer may instead leave the
buffer partially processed, and the error value carries no trees. -/
theorem buffer_unchanged_on_precondition_errors (sha : Bytes → Bytes) (ep : Nat → List Nat)
    (bp : Nat → Nat → List Nat) (c : Config) (cfgs : List Nat) (wi : Nat)
    (rid data encoded d1 d2 : Bytes) (e1 e2 : Err)
    (henc : encode_with_trees sha ep bp c cfgs wi rid data = (d1, .error e1))
    (he1 : e1 = .assertFail ∨ e1 = .precondition)
    (hdec : decode sha ep bp c wi rid encoded = (d2, some e2))
    (he2 : e2 = .precondition) :
    d1 = data ∧ d2 = encoded := by
  constructor
  · rcases he1 with he | he
    · exact (encode_err_shape sha ep bp c cfgs wi rid data d1 e1 henc).1 he
    · exact (encode_err_shape sha ep bp c cfgs wi rid data d1 e1 henc).2.1 he
  · exact decode_err_shape sha ep bp c wi rid encoded d2 e2 hdec he2

/-- Witness for buffer_unchanged_on_precondition_errors: a failed assertion on
encode and a length precondition on decode, both leaving buffers unchanged. -/
theorem buffer_unchanged_on_precondition_errors_witness :
    dataZero = dataZero ∧ ([] : Bytes) = [] :=
  buffer_unchanged_on_precondition_errors shaZero epNone bpNone cOne [] 0 ridZero
    dataZero [] dataZero [] Err.assertFail Err.precondition (by rfl) (Or.inl rfl)
    (by rfl) rfl

/-- Claim C1: for every config, replica id, window index and data buffer of
length window_size_bytes whose 32-byte nodes are valid field scalars, running
encode_with_trees on the buffer and then decode with the same config, window
index and replica id restores the buffer to its original byte contents. -/
theorem encode_decode_roundtrip (sha : Bytes → Bytes) (ep : Nat → List Nat)
    (bp : Nat → Nat → List Nat) (c : Config) (cfgs : List Nat) (wi : Nat)
    (rid data d' : Bytes) (trees : List (Nat × Bytes)) (rep : Nat × Bytes)
    (hsha : ∀ l, (sha l).length = 32)
    (hdata : data.length = c.window_size)
    (hbytes : ∀ x ∈ data, x < 256)
    (hscalar : ∀ i, i < c.num_nodes_window → fromLEBytes (getNode data i) < r)
    (henc : encode_with_trees sha ep bp c cfgs wi rid data = (d', .ok (trees, rep))) :
    decode sha ep bp c wi rid d' = (data, none) := by
  obtain ⟨hlen, prev, sc0, cfgs0, p1, q1, cfgs1, trees1, p2, q2, cfgs2, scF, rest2,
    hcfg, hmask, hfold1, hfold2, hencdec, hc2, hrep⟩ :=
    encode_ok_shape sha ep bp c cfgs wi rid data d' trees rep henc
  have hprev : prev.length = c.window_size :=
    mask_layer_out_length sha c wi rid _ prev hsha hmask
  have hrepl : (List.replicate c.window_size (0 : Nat)).length = c.window_size := by simp
  have hbp1 := layerTreeFold_foldPlain _ _ _ _ _ _ _ _ _ _ hfold1
  have hbp2 := layerTreeFold_foldPlain _ _ _ _ _ _ _ _ _ _ hfold2
  have hlen1 := foldPlain_length (expander_layer sha ep c wi rid) c.window_size
    (fun li p q out hout => expander_layer_ok_length sha ep c wi rid li p q out hsha hout)
    (expanderIndices c) prev _ p1 q1 hbp1 hprev hrepl
  have hlen2 := foldPlain_length (butterfly_layer sha bp c wi rid) c.window_size
    (fun li p q out hout => butterfly_layer_ok_length sha bp c wi rid li p q out hsha hout)
    (butterflyIndices c) p1 q1 p2 q2 hbp2 hlen1.1 hlen1.2
  have hp2 : p2.length = c.window_size := hlen2.1
  obtain ⟨d0, hrun0, hlen0, hnodes0⟩ := encdec_layer_spec sha bp c wi rid p2 data encodeOp
    hsha hp2 hdata hscalar
  have hd0 : d' = d0 := by
    have hx := hrun0
    rw [show butterfly_encode_decode_layer sha bp c wi rid c.num_layers p2 data encodeOp
      = butterfly_encode_layer sha bp c wi rid c.num_layers p2 data from rfl, hencdec] at hx
    exact (Prod.mk.injEq _ _ _ _ ▸ hx).1
  have hdl : decodeLayers sha ep bp c wi rid = .ok p2 := by
    simp only [decodeLayers, hmask, hbp1, hbp2]
  have hd'len : d'.length = c.window_size := by rw [hd0]; exact hlen0
  have hdnodes : ∀ i, i < c.num_nodes_window → getNode d' i =
      intoBytes (encodeOp (fromLEBytes (butterflyNode sha bp c wi rid c.num_layers p2 i))
        (fromLEBytes (getNode data i))) := by
    intro i hi
    rw [hd0]
    exact hnodes0 i hi
  have hscalar' : ∀ i, i < c.num_nodes_window → fromLEBytes (getNode d' i) < r := by
    intro i hi
    rw [hdnodes i hi, intoBytes, fromLEBytes_toLEBytes _ _
      (lt_trans (encodeOp_lt _ _) r_lt_pow)]
    exact encodeOp_lt _ _
  obtain ⟨d2, hrun2, hlen2', hnodes2⟩ := encdec_layer_spec sha bp c wi rid p2 d' decodeOp
    hsha hp2 hd'len hscalar'
  have hfin : d2 = data := by
    apply eq_of_nodes c.num_nodes_window
    · rw [hlen2', window_size_eq]
    · rw [hdata, window_size_eq]
    · intro i hi
      have hkey : fromLEBytes (butterflyNode sha bp c wi rid c.num_layers p2 i) < r :=
        truncate_lt_r _ (hsha _)
      have hm : fromLEBytes (getNode data i) < r := hscalar i hi
      rw [hnodes2 i hi, hdnodes i hi,
        fromLEBytes_intoBytes _ (lt_trans (encodeOp_lt _ _) r_lt_pow),
        decode_encode_roundtrip _ _ hkey hm]
      apply intoBytes_fromLEBytes
      · apply getNode_length
        rw [hdata, window_size_eq]
        omega
      · intro x hx
        exact hbytes x (mem_getNode data i x hx)
  simp only [decode, hdl]
  rw [show butterfly_decode_layer sha bp c wi rid c.num_layers p2 d' =
    butterfly_encode_decode_layer sha bp c wi rid c.num_layers p2 d' decodeOp from rfl,
    hrun2, hfin]

/-- Witness for encode_decode_roundtrip: the one-node-window run with the zero
hash, where the zero buffer encodes to itself and decodes back. -/
theorem encode_decode_roundtrip_witness :
    decode shaZero epNone bpNone cOne 0 ridZero dataZero = (dataZero, none) :=
  encode_decode_roundtrip shaZero epNone bpNone cOne [0, 1] 0 ridZero dataZero
    dataZero [(0, dataZero)] (1, dataZero) (fun l => by simp [shaZero]) (by decide)
    (by decide) (by decide) (by rfl)

lemma writeNodeList_spec (vals : Nat → Bytes) (n : Nat)
    (hv : ∀ i, i < n → (vals i).length = 32) :
    ∀ (order : List Nat) (buf : Bytes), buf.length = 32 * n → order.Nodup →
    (∀ i ∈ order, i < n) →
    (writeNodeList vals order buf).length = 32 * n ∧
    (∀ j, j < n → getNode (writeNodeList vals order buf) j =
      if j ∈ order then vals j else getNode buf j) := by
  intro order
  induction order with
  | nil =>
    intro buf hbuf _ _
    refine ⟨hbuf, fun j hj => ?_⟩
    simp [writeNodeList]
  | cons i rest ih =>
    intro buf hbuf hnd hmem
    have hi : i < n := hmem i (List.mem_cons_self i rest)
    have hbound : 32 * i + 32 ≤ buf.length := by omega
    have hstep : writeNodeList vals (i :: rest) buf =
        writeNodeList vals rest (setNode buf i (vals i)) := rfl
    have hb1 : (setNode buf i (vals i)).length = 32 * n := by
      rw [length_setNode buf i _ hbound (hv i hi)]
      exact hbuf
    obtain ⟨hlen, hnodes⟩ := ih (setNode buf i (vals i)) hb1 (List.nodup_cons.mp hnd).2
      (fun j hj => hmem j (List.mem_cons_of_mem i hj))
    rw [hstep]
    refine ⟨hlen, fun j hj => ?_⟩
    rw [hnodes j hj]
    by_cases hjr : j ∈ rest
    · rw [if_pos hjr, if_pos (List.mem_cons_of_mem i hjr)]
    · by_cases hji : j = i
      · subst hji
        rw [if_neg hjr, if_pos (List.mem_cons_self j rest)]
        exact getNode_setNode_self buf j _ hbound (hv j hi)
      · have hjn : j ∉ i :: rest := by
          intro hc
          rcases List.mem_cons.mp hc with hc | hc
          · exact hji hc
          · exact hjr hc
        rw [if_neg hjr, if_neg hjn]
        exact getNode_setNode_ne buf i j _ hbound (hv i hi) (fun he => hji he.symm)

lemma writeNodeList_perm (vals : Nat → Bytes) (n : Nat)
    (hv : ∀ i, i < n → (vals i).length = 32) (order : List Nat) (buf : Bytes)
    (hbuf : buf.length = 32 * n) (hperm : order.Perm (List.range n)) :
    writeNodeList vals order buf = nodesJoin vals n := by
  have hnd : order.Nodup := hperm.symm.nodup (List.nodup_range n)
  have hmem : ∀ i ∈ order, i < n := fun i hi => List.mem_range.mp (hperm.mem_iff.mp hi)
  obtain ⟨hlen, hnodes⟩ := writeNodeList_spec vals n hv order buf hbuf hnd hmem
  apply eq_of_nodes n _ _ hlen (nodesJoin_length vals n hv)
  intro i hi
  rw [hnodes i hi, if_pos (hperm.mem_iff.mpr (List.mem_range.mpr hi)),
    getNode_nodesJoin vals n i hv hi]

lemma mask_layer_sched_eq (order : List Nat) (sha : Bytes → Bytes) (c : Config) (wi : Nat)
    (rid layer_out : Bytes) (hsha : ∀ l, (sha l).length = 32)
    (hperm : order.Perm (List.range c.num_nodes_window)) :
    mask_layer_sched order sha c wi rid layer_out = mask_layer sha c wi rid layer_out := by
  rw [mask_layer_sched, mask_layer]
  by_cases hl : layer_out.length = c.window_size
  · rw [if_pos hl, if_pos hl]
    congr 1
    exact writeNodeList_perm _ _ (fun i _ => maskNode_length sha c wi rid i hsha) order
      layer_out (by rw [hl, window_size_eq]) hperm
  · rw [if_neg hl, if_neg hl]

lemma expander_layer_sched_eq (order : List Nat) (sha : Bytes → Bytes) (ep : Nat → List Nat)
    (c : Config) (wi : Nat) (rid : Bytes) (li : Nat) (layer_in layer_out : Bytes)
    (hsha : ∀ l, (sha l).length = 32)
    (hperm : order.Perm (List.range c.num_nodes_window)) :
    expander_layer_sched order sha ep c wi rid li layer_in layer_out =
      expander_layer sha ep c wi rid li layer_in layer_out := by
  rw [expander_layer_sched, expander_layer]
  by_cases h1 : layer_in.length ≠ layer_out.length
  · rw [if_pos h1, if_pos h1]
  · rw [if_neg h1, if_neg h1]
    by_cases h2 : layer_out.length ≠ c.window_size
    · rw [if_pos h2, if_pos h2]
    · rw [if_neg h2, if_neg h2]
      by_cases h3 : 1 < li ∧ li ≤ c.num_expander_layers
      · rw [if_pos h3, if_pos h3]
        congr 1
        exact writeNodeList_perm _ _
          (fun i _ => expanderNode_length sha ep c wi rid li layer_in i hsha) order
          layer_out (by rw [not_not.mp h2, window_size_eq]) hperm
      · rw [if_neg h3, if_neg h3]

lemma butterfly_layer_sched_eq (order : List Nat) (sha : Bytes → Bytes)
    (bp : Nat → Nat → List Nat) (c : Config) (wi : Nat) (rid : Bytes) (li : Nat)
    (layer_in layer_out : Bytes) (hsha : ∀ l, (sha l).length = 32)
    (hperm : order.Perm (List.range c.num_nodes_window)) :
    butterfly_layer_sched order sha bp c wi rid li layer_in layer_out =
      butterfly_layer sha bp c wi rid li layer_in layer_out := by
  rw [butterfly_layer_sched, butterfly_layer]
  by_cases h1 : layer_in.length ≠ layer_out.length
  · rw [if_pos h1, if_pos h1]
  · rw [if_neg h1, if_neg h1]
    by_cases h2 : layer_out.length ≠ c.window_size
    · rw [if_pos h2, if_pos h2]
    · rw [if_neg h2, if_neg h2]
      by_cases h3 : c.num_expander_layers < li ∧
          li < c.num_expander_layers + c.num_butterfly_layers
      · rw [if_pos h3, if_pos h3]
        congr 1
        exact writeNodeList_perm _ _
          (fun i _ => butterflyNode_length sha bp c wi rid li layer_in i hsha) order
          layer_out (by rw [not_not.mp h2, window_size_eq]) hperm
      · rw [if_neg h3, if_neg h3]

lemma encode_sched_eq (sched : Nat → List Nat) (sha : Bytes → Bytes) (ep : Nat → List Nat)
    (bp : Nat → Nat → List Nat) (c : Config) (cfgs : List Nat) (wi : Nat)
    (rid data : Bytes) (hsha : ∀ l, (sha l).length = 32)
    (hperm : ∀ li, (sched li).Perm (List.range c.num_nodes_window)) :
    encode_with_trees_sched sched sha ep bp c cfgs wi rid data =
      encode_with_trees sha ep bp c cfgs wi rid data := by
  have hm := mask_layer_sched_eq (sched 1) sha c wi rid (List.replicate c.window_size 0)
    hsha (hperm 1)
  have he : ∀ (idxs : List Nat) (st : Bytes × Bytes × List Nat × List (Nat × Bytes)),
      layerTreeFold (fun li p q => expander_layer_sched (sched li) sha ep c wi rid li p q)
        idxs st = layerTreeFold (expander_layer sha ep c wi rid) idxs st :=
    layerTreeFold_congr _ _ (fun li p q =>
      expander_layer_sched_eq (sched li) sha ep c wi rid li p q hsha (hperm li))
  have hb : ∀ (idxs : List Nat) (st : Bytes × Bytes × List Nat × List (Nat × Bytes)),
      layerTreeFold (fun li p q => butterfly_layer_sched (sched li) sha bp c wi rid li p q)
        idxs st = layerTreeFold (butterfly_layer sha bp c wi rid) idxs st :=
    layerTreeFold_congr _ _ (fun li p q =>
      butterfly_layer_sched_eq (sched li) sha bp c wi rid li p q hsha (hperm li))
  simp only [ encode_with_trees_sched, encode_with_trees, hm, he, hb]

/-- Claim C8: encode_with_trees is deterministic: two runs with identical
inputs produce identical results (replica bytes, intermediate trees and
replica tree), regardless of the order in which the data-parallel node writes
of each layer are executed. -/
theorem encode_with_trees_deterministic (sched1 sched2 : Nat → List Nat)
    (sha : Bytes → Bytes) (ep : Nat → List Nat) (bp : Nat → Nat → List Nat) (c : Config)
    (cfgs : List Nat) (wi : Nat) (rid data : Bytes)
    (hsha : ∀ l, (sha l).length = 32)
    (hs1 : ∀ li, (sched1 li).Perm (List.range c.num_nodes_window))
    (hs2 : ∀ li, (sched2 li).Perm (List.range c.num_nodes_window)) :
    encode_with_trees_sched sched1 sha ep bp c cfgs wi rid data =
      encode_with_trees_sched sched2 sha ep bp c cfgs wi rid data := by
  rw [encode_sched_eq sched1 sha ep bp c cfgs wi rid data hsha hs1,
    encode_sched_eq sched2 sha ep bp c cfgs wi rid data hsha hs2]

/-- Witness for encode_with_trees_deterministic on the two-node window, with
ascending and descending write schedules. -/
theorem encode_with_trees_deterministic_witness :
    encode_with_trees_sched schedUp shaZero epNone bpNone cTwo [0, 1] 0 ridZero
      (dataZero ++ dataZero) =
    encode_with_trees_sched schedDown shaZero epNone bpNone cTwo [0, 1] 0 ridZero
      (dataZero ++ dataZero) :=
  encode_with_trees_deterministic schedUp schedDown shaZero epNone bpNone cTwo [0, 1] 0
    ridZero (dataZero ++ dataZero) (fun l => by simp [shaZero])
    (fun li => show ([0, 1] : List Nat).Perm (List.range 2) by decide)
    (fun li => show ([1, 0] : List Nat).Perm (List.range 2) by decide)

end NSE

